import Mathlib

/-!
Verification of the HDF5 packed attribute-classifications engine
(`pyscm/binary_attributes/classifications/hdf5.py`).

The Python module is shallowly embedded below.  Packed words are `Nat`
values (each word is `< 2 ^ pack` for pack-size 32 or 64); row counts and
global/relative row indices are `Int` (Python integers, negatives
included); fallible operations return `Except String`, the string naming
the Python exception raised.  Two collaborators of the module are not part
of the analyzed source (`_unpack_binary_bytes_from_ints` and
`inplace_popcount_32/64`); they are modelled from the specification and
marked as such in their doc comments.
-/

namespace PyScm

/-- `sum(l)` over Python integers. -/
def sumInt : List Int → Int
  | [] => 0
  | a :: l => a + sumInt l

/-- Sum of the first `k` entries. -/
def sumTake (ns : List Int) (k : Nat) : Int := sumInt (ns.take k)

/-- The `dataset_start_example` recurrence of `__init__` (lines 86-91) and
`remove_rows` (line 136): entry `i` is the running sum of the row counts
before index `i`. -/
def cumStarts (run : Int) : List Int → List Int
  | [] => []
  | n :: rest => run :: cumStarts (run + n) rest

/-- The `dataset_stop_example` recurrence of `__init__` (lines 78-84) and
`remove_rows` (line 135): entry `i` is the running sum of the row counts
up to and including index `i`. -/
def cumStops (run : Int) : List Int → List Int
  | [] => []
  | n :: rest => (run + n) :: cumStops (run + n) rest

/-- Insert into a strictly sorted list of distinct naturals, dropping the
element when already present. -/
def insertSorted (x : Nat) : List Nat → List Nat
  | [] => [x]
  | y :: ys =>
    if x < y then x :: y :: ys
    else if x = y then y :: ys
    else y :: insertSorted x ys

/-- Python's `sorted(set(l))`: the strictly increasing enumeration of the
distinct elements of `l`. -/
def sortedDedup (l : List Nat) : List Nat := l.foldr insertSorted []

/-- Boolean check that a list of naturals is strictly increasing. -/
def strictSorted : List Nat → Bool
  | [] => true
  | [_] => true
  | a :: b :: t => decide (a < b) && strictSorted (b :: t)

/-- Stable insertion into a sorted list of integers (duplicates kept). -/
def insSortInt (x : Int) : List Int → List Int
  | [] => [x]
  | y :: ys => if x ≤ y then x :: y :: ys else y :: insSortInt x ys

/-- `np.sort` on a list of integers: ascending order, duplicates kept. -/
def sortInts (l : List Int) : List Int := l.foldr insSortInt []

/-- Number of set bits among the low `width` bits of a word; the words of
the store are `< 2 ^ width`, so this is their full population count. -/
def popcountW (width : Nat) (x : Nat) : Nat :=
  (List.range width).countP (fun i => x.testBit i)

/-! ### Data model -/

/-- One backing HDF5 dataset: a 2-D array of packed words together with
the attributes the engine reads from it (`shape[1]`, `chunks`, `dtype`).
`dtype` is the word width in bits (`np.uint32` ↦ 32, `np.uint64` ↦ 64). -/
structure Dataset where
  rows : List (List Nat)
  ncols : Nat
  chunkRows : Nat
  chunkCols : Nat
  dtype : Nat
  deriving Repr, DecidableEq, Inhabited

/-- The mutable state of an `HDF5PackedAttributeClassifications` object,
field names following the Python attributes.  `row_block_size` and
`col_block_size` are `Option` because the source sets those attributes
only when the corresponding constructor argument is `None`; an unset
attribute is `none` and reading it raises `AttributeError`. -/
structure State where
  datasets : List Dataset
  dataset_initial_n_rows : List Int
  dataset_n_rows : List Int
  initial_total_n_rows : Int
  total_n_rows : Int
  dataset_n_cols : Nat
  dataset_dtype : Nat
  dataset_removed_rows : List (List Nat)
  row_block_size : Option Nat
  col_block_size : Option Nat
  dataset_stop_example : List Int
  dataset_start_example : List Int
  dataset_pack_size : Nat
  deriving Repr, DecidableEq, Inhabited

/-- `shape` property (lines 144-146). -/
def shape (s : State) : Int × Nat := (s.total_n_rows, s.dataset_n_cols)

/-- `_get_row_dataset` (lines 228-233): first dataset index whose
half-open `[start, stop)` range contains the row; `none` models the `-1`
return value. -/
def getRowDataset (s : State) (row : Int) : Option Nat :=
  (List.range s.datasets.length).find? (fun i =>
    decide (s.dataset_start_example.getD i 0 ≤ row ∧
            row < s.dataset_stop_example.getD i 0))

/-! ### `build_row_mask` (lines 41-53; the inner copy at 155-167 is identical) -/

/-- The `for idx in example_idx` loop of `build_row_mask`: OR the bit for
each row index into its mask word, `IndexError` when the word index is
outside the mask list (Python list assignment). -/
def setMaskBits (w : Nat) : List Nat → List Nat → Except String (List Nat)
  | [], m => .ok m
  | idx :: rest, m =>
    if idx / w < m.length then
      setMaskBits w rest (m.set (idx / w) ((m.getD (idx / w) 0) |||
        (1 <<< (w - 1 - idx % w))))
    else .error "IndexError: list assignment index out of range"

/-- `build_row_mask(example_idx, n_examples, mask_n_bits)`.  The width
check accepts 128, but the final `np.array(masks, dtype="u" + str(mask_n_bits / 8))`
then asks numpy for the dtype string `"u16"`, i.e. a 128-bit unsigned
integer, which numpy does not have, so that call raises `TypeError`; for
widths 8/16/32/64 the dtype conversion is the identity because every mask
word is below `2 ^ mask_n_bits`.  `n_examples` is an `Int` because
`sum_rows` passes the current (Python-int) dataset row count; a
non-positive count yields an empty mask list exactly as `[0] * n` does in
Python for `n <= 0`. -/
def build_row_mask (example_idx : List Nat) (n_examples : Int)
    (mask_n_bits : Nat) : Except String (List Nat) :=
  if mask_n_bits ∈ ([8, 16, 32, 64, 128] : List Nat) then
    let n_masks : Nat :=
      if n_examples ≤ 0 then 0 else (n_examples.toNat + mask_n_bits - 1) / mask_n_bits
    match setMaskBits mask_n_bits example_idx (List.replicate n_masks 0) with
    | .error e => .error e
    | .ok masks =>
      if mask_n_bits = 128 then .error "TypeError: data type not understood"
      else .ok masks
  else .error "ValueError: Unsupported mask format. Use 8, 16, 32, 64 or 128 bits."

/-- `_column_sum_dtype` (lines 28-38), returning the width in bits of the
selected unsigned result dtype for a row subset of the given size. -/
def columnSumDtype (n : Nat) : Nat :=
  if n ≤ 2 ^ 8 - 1 then 8
  else if n ≤ 2 ^ 16 - 1 then 16
  else if n ≤ 2 ^ 32 - 1 then 32
  else 64

/-! ### Construction (`__init__`, lines 56-104) -/

/-- The column/dtype agreement loop over `self.datasets[1:]`
(lines 72-76), first violation wins. -/
def checkTail (ncols dtype : Nat) : List Dataset → Except String Unit
  | [] => .ok ()
  | d :: rest =>
    if d.ncols ≠ ncols then
      .error "RuntimeError: All datasets must have the same number of columns."
    else if d.dtype ≠ dtype then
      .error "RuntimeError: All datasets must have the same data type."
    else checkTail ncols dtype rest

/-- `__init__(datasets, n_rows, row_block_size, col_block_size)`.
An empty dataset list raises `IndexError` at `self.datasets[0]`; a
`n_rows` list shorter than `datasets` raises `IndexError` in the
start/stop loops; the block-size attributes are set only when the
corresponding argument is `None` (the source has no `else` branch), so a
supplied override leaves the attribute unset (`none`). -/
def mkState (datasets : List Dataset) (n_rows : List Int)
    (row_block_size col_block_size : Option Nat) : Except String State :=
  match datasets with
  | [] => .error "IndexError: list index out of range"
  | d0 :: rest =>
    match checkTail d0.ncols d0.dtype rest with
    | .error e => .error e
    | .ok _ =>
      if n_rows.length < datasets.length then
        .error "IndexError: list index out of range"
      else
        match (if d0.dtype = 32 then some 32
               else if d0.dtype = 64 then some 64 else none) with
        | none =>
          .error "ValueError: Unsupported data type for packed attribute classifications array."
        | some pack =>
          .ok { datasets := datasets
                dataset_initial_n_rows := n_rows
                dataset_n_rows := n_rows
                initial_total_n_rows := sumInt n_rows
                total_n_rows := sumInt n_rows
                dataset_n_cols := d0.ncols
                dataset_dtype := d0.dtype
                dataset_removed_rows := List.replicate datasets.length []
                row_block_size :=
                  if row_block_size.isNone then some d0.chunkRows else none
                col_block_size :=
                  if col_block_size.isNone then some d0.chunkCols else none
                dataset_stop_example := cumStops 0 (n_rows.take datasets.length)
                dataset_start_example := cumStarts 0 (n_rows.take datasets.length)
                dataset_pack_size := pack }

/-! ### `remove_rows` (lines 116-137) -/

/-- Phase 1 of `remove_rows` (lines 118-124): locate every row, collecting
the relative index `row - start` per dataset; `IndexError` at the first
row no dataset contains, before any state is touched. -/
def collectRemovals (s : State) : List Int → List (List Nat) →
    Except String (List (List Nat))
  | [], acc => .ok acc
  | row :: rest, acc =>
    match getRowDataset s row with
    | some i =>
      collectRemovals s rest
        (acc.set i (acc.getD i [] ++ [(row - s.dataset_start_example.getD i 0).toNat]))
    | none => .error "IndexError: row index out of bounds"

/-- Phase 2 of `remove_rows` (lines 131-137): for datasets that gained
removals, merge by `sorted(set(old + new))` and recompute the row count
from the initial count; recompute every stop/start by the running-sum
recurrence and the total as the sum of the per-dataset counts.  Python
mutates the first `len(datasets)` entries of the bookkeeping lists in
place, leaving any excess entries alone, hence the `++ List.drop`. -/
def removeRows (s : State) (rows : List Int) : Except String State :=
  match collectRemovals s rows (List.replicate s.datasets.length []) with
  | .error e => .error e
  | .ok newRem =>
    let n := s.datasets.length
    let removedHead := (List.range n).map (fun i =>
      if (newRem.getD i []).length > 0 then
        sortedDedup (s.dataset_removed_rows.getD i [] ++ newRem.getD i [])
      else s.dataset_removed_rows.getD i [])
    let nrowsHead := (List.range n).map (fun i =>
      if (newRem.getD i []).length > 0 then
        s.dataset_initial_n_rows.getD i 0 - ((removedHead.getD i []).length : Int)
      else s.dataset_n_rows.getD i 0)
    let nrows := nrowsHead ++ s.dataset_n_rows.drop n
    .ok { s with
          dataset_removed_rows := removedHead ++ s.dataset_removed_rows.drop n
          dataset_n_rows := nrows
          dataset_stop_example := cumStops 0 nrowsHead
          dataset_start_example := cumStarts 0 nrowsHead
          total_n_rows := sumInt nrows }

/-! ### `get_column` (lines 106-114) -/

/-- Modelled from the spec: `_unpack_binary_bytes_from_ints` (imported
from `...utils`, not part of the analyzed source) unpacks a sequence of
packed words into one boolean per bit, most-significant bit first, so the
bit of physical row `r` is bit `pack - 1 - r % pack` of word `r / pack`. -/
def unpackWords (pack : Nat) (words : List Nat) : List Bool :=
  words.flatMap (fun w => (List.range pack).map (fun j => w.testBit (pack - 1 - j)))

/-- `dataset[:, column]`: the column of packed words. -/
def colOfDataset (d : Dataset) (col : Nat) : List Nat :=
  d.rows.map (fun r => r.getD col 0)

/-- numpy boolean-mask indexing `arr[mask]` (for `len(mask) = len(arr)`,
the only case reached): keep the entries whose mask bit is `true`. -/
def maskFilter (xs : List Bool) : List Bool → List Bool
  | [] => []
  | b :: m =>
    match xs with
    | [] => []
    | x :: xs' => if b then x :: maskFilter xs' m else maskFilter xs' m

/-- One iteration of the `get_column` dataset loop (lines 108-113): build
the keep-mask (`ones`, then `False` from `initial_n_rows` on, then
`False` at every removed relative row), unpack the packed column, filter
it by the mask and write it into `result[start:stop]`.  The guard mirrors
numpy, which raises when the filtered column does not exactly fill the
(clamped) destination slice. -/
def gcStep (s : State) (col i : Nat) (acc : List Bool) :
    Except String (List Bool) :=
  let d := s.datasets.getD i default
  let cap := d.rows.length * s.dataset_pack_size
  let mask0 := (List.range cap).map
    (fun (j : Nat) => decide ((j : Int) < s.dataset_initial_n_rows.getD i 0))
  let mask := (s.dataset_removed_rows.getD i []).foldl
    (fun m r => m.set r false) mask0
  let filtered := maskFilter (unpackWords s.dataset_pack_size (colOfDataset d col)) mask
  let a := (s.dataset_start_example.getD i 0).toNat
  let b := min (s.dataset_stop_example.getD i 0).toNat acc.length
  if a ≤ b ∧ filtered.length = b - a then
    .ok (acc.take a ++ filtered ++ acc.drop b)
  else .error "ValueError: could not broadcast input array"

/-- The `get_column` dataset loop over the given dataset indices. -/
def gcLoop (s : State) (col : Nat) : List Nat → List Bool →
    Except String (List Bool)
  | [], acc => .ok acc
  | i :: rest, acc =>
    match gcStep s col i acc with
    | .error e => .error e
    | .ok acc' => gcLoop s col rest acc'

/-- `get_column(column)` (lines 106-114): start from
`np.zeros(total_n_rows)` (numpy rejects a negative length) and run the
dataset loop. -/
def getColumn (s : State) (col : Nat) : Except String (List Bool) :=
  if s.total_n_rows < 0 then
    .error "ValueError: negative dimensions are not allowed"
  else
    gcLoop s col (List.range s.datasets.length)
      (List.replicate s.total_n_rows.toNat false)

/-- The spec's description of one dataset's contribution to
`get_column`: a keep-mask that is `true` exactly for physical rows below
`initial_row_count` and not in `removed_relative_rows`, applied to the
unpacked column. -/
def keptColumn (pack : Nat) (d : Dataset) (col : Nat) (init : Int)
    (removed : List Nat) : List Bool :=
  maskFilter (unpackWords pack (colOfDataset d col))
    ((List.range (d.rows.length * pack)).map
      (fun (j : Nat) => decide ((j : Int) < init) && !(decide (j ∈ removed))))

/-- The spec's contract for `get_column`: the per-dataset kept rows,
concatenated in dataset order. -/
def specGetColumn (s : State) (col : Nat) : List Bool :=
  (List.range s.datasets.length).flatMap (fun i =>
    keptColumn s.dataset_pack_size (s.datasets.getD i default) col
      (s.dataset_initial_n_rows.getD i 0) (s.dataset_removed_rows.getD i []))

/-! ### `sum_rows` (lines 148-226) -/

/-- Modelled from the spec: the popcount primitive
`inplace_popcount_32/64` (imported from `.popcount`, not part of the
analyzed source) replaces each word of the block by the number of set
bits it shares with the mask word of its block row, so that a column-wise
sum over the block yields the masked population count.  The call site
passes the whole per-dataset mask, so block row `b` is paired with mask
word `b`. -/
def popcountInPlace (width : Nat) (block : List (List Nat)) (mask : List Nat) :
    List (List Nat) :=
  (block.zip mask).map (fun p => p.1.map (fun wd => popcountW width (wd &&& p.2)))

/-- `np.sum(block, axis=0)` for a block of unsigned words: column-wise
sums, accumulated in numpy's 64-bit unsigned reduction dtype. -/
def colSum : List (List Nat) → List Nat
  | [] => []
  | r :: rest =>
    rest.foldl (fun acc row => List.zipWith (fun a b => (a + b) % 2 ^ 64) acc row)
      (r.map (· % 2 ^ 64))

/-- `result[off : off + len(xs)] += xs` on a result vector of unsigned
`width`-bit counts (numpy in-place addition wraps modulo `2 ^ width`). -/
def addAt (width : Nat) (res : List Nat) (off : Nat) (xs : List Nat) : List Nat :=
  res.take off ++
    List.zipWith (fun a b => (a + b) % 2 ^ width) ((res.drop off).take xs.length) xs ++
    res.drop (off + xs.length)

/-- The row-location loop of `sum_rows` (lines 173-185) over the sorted
rows: find the dataset, take the naive relative index `row - start`, add
the number of removed relative rows at or below it (lines 178-180), and
collect the result per dataset; `IndexError` when no dataset contains the
row. -/
def locateRows (s : State) : List Int → List (List Nat) →
    Except String (List (List Nat))
  | [], acc => .ok acc
  | row :: rest, acc =>
    match getRowDataset s row with
    | some i =>
      let naive : Int := row - s.dataset_start_example.getD i 0
      let off : Nat := ((s.dataset_removed_rows.getD i []).filter
        (fun r => decide ((r : Int) ≤ naive))).length
      locateRows s rest (acc.set i (acc.getD i [] ++ [(naive + (off : Int)).toNat]))
    | none => .error "IndexError: row index out of bounds"

/-- The per-dataset mask list of `sum_rows` (lines 187-191): a row mask
for every dataset with at least one selected row, `[]` otherwise. -/
def buildMasks (s : State) (rel : List (List Nat)) : List Nat →
    Except String (List (List Nat))
  | [] => .ok []
  | i :: rest =>
    match (if (rel.getD i []).length > 0 then
             build_row_mask (rel.getD i []) (s.dataset_n_rows.getD i 0)
               s.dataset_pack_size
           else .ok []) with
    | .error e => .error e
    | .ok m =>
      match buildMasks s rel rest with
      | .error e => .error e
      | .ok ms => .ok (m :: ms)

/-- The doubly nested block loop of `sum_rows` for one dataset
(lines 209-224): stream the nonzero-mask rows in row blocks and the
columns in column blocks, popcount each block against the mask and
accumulate the column sums; the second component counts block loads
(backing I/O operations). -/
def blockLoops (s : State) (width cbs rbs nColBlocks : Nat) (i : Nat)
    (rowsToLoad : List Nat) (mask : List Nat) (acc : List Nat × Nat) :
    List Nat × Nat :=
  let nRowBlocks := (rowsToLoad.length + rbs - 1) / rbs
  (List.range nRowBlocks).foldl (fun acc2 rb =>
    (List.range nColBlocks).foldl (fun acc3 cb =>
      let sel := (rowsToLoad.drop (rb * rbs)).take rbs
      let d := s.datasets.getD i default
      let block := sel.map (fun r => ((d.rows.getD r []).drop (cb * cbs)).take cbs)
      let counted := popcountInPlace s.dataset_pack_size block mask
      (addAt width acc3.1 (cb * cbs) (colSum counted), acc3.2 + 1)) acc2) acc

/-- The dataset loop of `sum_rows` (lines 196-224): skip datasets with an
empty mask (no I/O at all); otherwise read `row_block_size`
(`AttributeError` when the constructor dropped a supplied override,
`ZeroDivisionError` on a zero block size) and run the block loops. -/
def dsLoop (s : State) (width cbs nColBlocks : Nat) (masks : List (List Nat)) :
    List Nat → List Nat × Nat → Except String (List Nat × Nat)
  | [], acc => .ok acc
  | i :: rest, acc =>
    let mask := masks.getD i []
    if mask.length = 0 then dsLoop s width cbs nColBlocks masks rest acc
    else
      let rowsToLoad := (List.range mask.length).filter (fun k => mask.getD k 0 ≠ 0)
      match s.row_block_size with
      | none =>
        .error "AttributeError: 'HDF5PackedAttributeClassifications' object has no attribute 'row_block_size'"
      | some rbs =>
        if rbs = 0 then .error "ZeroDivisionError: float division by zero"
        else dsLoop s width cbs nColBlocks masks rest
          (blockLoops s width cbs rbs nColBlocks i rowsToLoad mask acc)

/-- `sum_rows(rows)` (lines 148-226).  Result: the width of the chosen
result dtype, the per-column counts, and the number of block loads
performed against the backing datasets. -/
def sumRows (s : State) (rows : List Int) :
    Except String (Nat × List Nat × Nat) :=
  let width := columnSumDtype rows.length
  let result0 := List.replicate s.dataset_n_cols 0
  match locateRows s (sortInts rows) (List.replicate s.datasets.length []) with
  | .error e => .error e
  | .ok rel =>
    match buildMasks s rel (List.range s.datasets.length) with
    | .error e => .error e
    | .ok masks =>
      match s.col_block_size with
      | none =>
        .error "AttributeError: 'HDF5PackedAttributeClassifications' object has no attribute 'col_block_size'"
      | some cbs =>
        if cbs = 0 then .error "ZeroDivisionError: float division by zero"
        else
          let nColBlocks := (s.dataset_n_cols + cbs - 1) / cbs
          match dsLoop s width cbs nColBlocks masks
              (List.range s.datasets.length) (result0, 0) with
          | .error e => .error e
          | .ok r => .ok (width, r.1, r.2)

/-! ### Well-formedness

`WF` collects the facts that hold of every state produced by `mkState`
(for declared row counts that are non-negative and within the physical
capacity of their dataset) and are preserved by every successful
`removeRows`; every lemma about a reachable state assumes it. -/

def WF (s : State) : Prop :=
  s.dataset_initial_n_rows.length = s.datasets.length ∧
  s.dataset_n_rows.length = s.datasets.length ∧
  s.dataset_removed_rows.length = s.datasets.length ∧
  s.dataset_start_example = cumStarts 0 s.dataset_n_rows ∧
  s.dataset_stop_example = cumStops 0 s.dataset_n_rows ∧
  s.total_n_rows = sumInt s.dataset_n_rows ∧
  ∀ i ∈ List.range s.datasets.length,
    (0 : Int) ≤ s.dataset_initial_n_rows.getD i 0 ∧
    s.dataset_n_rows.getD i 0 =
      s.dataset_initial_n_rows.getD i 0 -
        ((s.dataset_removed_rows.getD i []).length : Int) ∧
    strictSorted (s.dataset_removed_rows.getD i []) = true ∧
    (∀ r ∈ s.dataset_removed_rows.getD i [],
      (r : Int) < s.dataset_initial_n_rows.getD i 0) ∧
    s.dataset_initial_n_rows.getD i 0 ≤
      ((s.datasets.getD i default).rows.length * s.dataset_pack_size : Int)

instance (s : State) : Decidable (WF s) := by
  unfold WF
  infer_instance

/-- The index invariant claimed for the virtualizer: `start[0] = 0`,
`stop[i] = start[i] + n_rows[i]`, `start[i+1] = stop[i]`, the total is the
sum of the per-dataset counts, and the `[start, stop)` ranges partition
`[0, total_n_rows)` with no overlaps. -/
def Inv (s : State) : Prop :=
  (0 < s.datasets.length → s.dataset_start_example.getD 0 0 = 0) ∧
  (∀ i ∈ List.range s.datasets.length,
    s.dataset_stop_example.getD i 0 =
      s.dataset_start_example.getD i 0 + s.dataset_n_rows.getD i 0) ∧
  (∀ i ∈ List.range s.datasets.length, i + 1 < s.datasets.length →
    s.dataset_start_example.getD (i + 1) 0 = s.dataset_stop_example.getD i 0) ∧
  s.total_n_rows = sumInt s.dataset_n_rows ∧
  (∀ r : Int, (0 ≤ r ∧ r < s.total_n_rows) ↔
    ∃ i, i < s.datasets.length ∧
      s.dataset_start_example.getD i 0 ≤ r ∧ r < s.dataset_stop_example.getD i 0) ∧
  (∀ i j, i < s.datasets.length → j < s.datasets.length → ∀ r : Int,
    s.dataset_start_example.getD i 0 ≤ r → r < s.dataset_stop_example.getD i 0 →
    s.dataset_start_example.getD j 0 ≤ r → r < s.dataset_stop_example.getD j 0 →
    i = j)

/-! ### Arithmetic of the running sums -/

theorem sumInt_append (a b : List Int) :
    sumInt (a ++ b) = sumInt a + sumInt b := by
  induction a with
  | nil => simp [sumInt]
  | cons x t ih => simp [sumInt, ih]; ring

theorem sumInt_nonneg (l : List Int) (h : ∀ x ∈ l, 0 ≤ x) : 0 ≤ sumInt l := by
  induction l with
  | nil => simp [sumInt]
  | cons x t ih =>
    have hx := h x (by simp)
    have ht := ih (fun y hy => h y (by simp [hy]))
    simp only [sumInt]; omega

theorem sumTake_zero (ns : List Int) : sumTake ns 0 = 0 := rfl

theorem sumTake_succ (ns : List Int) (k : Nat) (hk : k < ns.length) :
    sumTake ns (k + 1) = sumTake ns k + ns.getD k 0 := by
  induction ns generalizing k with
  | nil => simp at hk
  | cons n rest ih =>
    cases k with
    | zero => simp [sumTake, sumInt]
    | succ k' =>
      have := ih k' (by simpa using hk)
      simp only [sumTake, List.take_succ_cons, sumInt, List.getD_cons_succ] at *
      omega

theorem sumTake_mono (ns : List Int) (h : ∀ x ∈ ns, 0 ≤ x) {j k : Nat}
    (hjk : j ≤ k) : sumTake ns j ≤ sumTake ns k := by
  induction ns generalizing j k with
  | nil => simp [sumTake, sumInt]
  | cons n rest ih =>
    cases j with
    | zero =>
      cases k with
      | zero => exact le_rfl
      | succ k' =>
        have hn := h n (by simp)
        have : (0 : Int) ≤ sumTake rest k' := by
          have : sumTake rest 0 ≤ sumTake rest k' :=
            ih (fun y hy => h y (by simp [hy])) (Nat.zero_le _)
          simpa [sumTake_zero] using this
        simp only [sumTake, List.take_succ_cons, sumInt, List.take_zero] at *
        omega
    | succ j' =>
      cases k with
      | zero => omega
      | succ k' =>
        have := ih (fun y hy => h y (by simp [hy])) (Nat.succ_le_succ_iff.mp hjk)
        simp only [sumTake, List.take_succ_cons, sumInt] at *
        omega

theorem sumTake_of_ge (ns : List Int) {k : Nat} (hk : ns.length ≤ k) :
    sumTake ns k = sumInt ns := by
  simp [sumTake, List.take_of_length_le hk]

theorem cumStarts_length (a : Int) (ns : List Int) :
    (cumStarts a ns).length = ns.length := by
  induction ns generalizing a with
  | nil => rfl
  | cons n rest ih => simp [cumStarts, ih]

theorem cumStops_length (a : Int) (ns : List Int) :
    (cumStops a ns).length = ns.length := by
  induction ns generalizing a with
  | nil => rfl
  | cons n rest ih => simp [cumStops, ih]

theorem cumStarts_getD (a : Int) (ns : List Int) (i : Nat)
    (hi : i < ns.length) :
    (cumStarts a ns).getD i 0 = a + sumTake ns i := by
  induction ns generalizing a i with
  | nil => simp at hi
  | cons n rest ih =>
    cases i with
    | zero => simp [cumStarts, sumTake, sumInt]
    | succ i' =>
      have := ih (a + n) i' (by simpa using hi)
      simp only [cumStarts, List.getD_cons_succ, sumTake, List.take_succ_cons,
        sumInt] at *
      omega

theorem cumStops_getD (a : Int) (ns : List Int) (i : Nat)
    (hi : i < ns.length) :
    (cumStops a ns).getD i 0 = a + sumTake ns (i + 1) := by
  induction ns generalizing a i with
  | nil => simp at hi
  | cons n rest ih =>
    cases i with
    | zero => simp [cumStops, sumTake, sumInt]
    | succ i' =>
      have := ih (a + n) i' (by simpa using hi)
      simp only [cumStops, List.getD_cons_succ, sumTake, List.take_succ_cons,
        sumInt] at *
      omega

/-! ### Strictly sorted lists of naturals -/

theorem strictSorted_cons {a : Nat} {t : List Nat}
    (h : strictSorted (a :: t) = true) : strictSorted t = true := by
  cases t with
  | nil => rfl
  | cons b t' =>
    simp only [strictSorted, Bool.and_eq_true, decide_eq_true_eq] at h
    exact h.2

theorem strictSorted_head_lt {a : Nat} {t : List Nat}
    (h : strictSorted (a :: t) = true) : ∀ x ∈ t, a < x := by
  induction t generalizing a with
  | nil => simp
  | cons b t' ih =>
    simp only [strictSorted, Bool.and_eq_true, decide_eq_true_eq] at h
    intro x hx
    rcases List.mem_cons.mp hx with rfl | hx'
    · exact h.1
    · exact Nat.lt_trans h.1 (ih h.2 x hx')

theorem strictSorted_two {a b : Nat} {t : List Nat} :
    strictSorted (a :: b :: t) = true ↔
      a < b ∧ strictSorted (b :: t) = true := by
  simp [strictSorted]

theorem strictSorted_nodup {l : List Nat} (h : strictSorted l = true) :
    l.Nodup := by
  induction l with
  | nil => simp
  | cons a t ih =>
    refine List.nodup_cons.mpr ⟨fun hmem => ?_, ih (strictSorted_cons h)⟩
    exact absurd rfl (Nat.ne_of_lt (strictSorted_head_lt h a hmem)).symm

/-- A strictly increasing list of naturals below `m` has at most `m`
elements. -/
theorem strictSorted_length_le {l : List Nat} (m : Nat)
    (hs : strictSorted l = true) (hb : ∀ x ∈ l, x < m) : l.length ≤ m := by
  have hnd := strictSorted_nodup hs
  have hsub : l.toFinset ⊆ Finset.range m := by
    intro x hx
    rw [List.mem_toFinset] at hx
    exact Finset.mem_range.mpr (hb x hx)
  have := Finset.card_le_card hsub
  rwa [List.toFinset_card_of_nodup hnd, Finset.card_range] at this

theorem mem_insertSorted {x y : Nat} {l : List Nat} :
    y ∈ insertSorted x l ↔ y = x ∨ y ∈ l := by
  induction l with
  | nil => simp [insertSorted]
  | cons a t ih =>
    by_cases h1 : x < a
    · simp [insertSorted, h1]
    · by_cases h2 : x = a
      · subst h2; simp [insertSorted, h1]
      · simp only [insertSorted, if_neg h1, if_neg h2, List.mem_cons, ih]
        tauto

theorem strictSorted_insertSorted {x : Nat} {l : List Nat}
    (h : strictSorted l = true) : strictSorted (insertSorted x l) = true := by
  induction l with
  | nil => rfl
  | cons a t ih =>
    simp only [insertSorted]
    by_cases h1 : x < a
    · simp only [if_pos h1]
      exact strictSorted_two.mpr ⟨h1, h⟩
    · simp only [if_neg h1]
      by_cases h2 : x = a
      · simp only [if_pos h2]; exact h
      · simp only [if_neg h2]
        have hax : a < x := by omega
        have hrec := ih (strictSorted_cons h)
        have hmem : ∀ y ∈ insertSorted x t, a < y := by
          intro y hy
          rcases mem_insertSorted.mp hy with rfl | hy'
          · exact hax
          · exact strictSorted_head_lt h y hy'
        cases hi : insertSorted x t with
        | nil => rfl
        | cons b u =>
          have hb : a < b := hmem b (by rw [hi]; exact List.mem_cons_self b u)
          rw [hi] at hrec
          exact strictSorted_two.mpr ⟨hb, hrec⟩

theorem strictSorted_sortedDedup (l : List Nat) :
    strictSorted (sortedDedup l) = true := by
  induction l with
  | nil => rfl
  | cons a t ih => exact strictSorted_insertSorted ih

theorem mem_sortedDedup {y : Nat} {l : List Nat} :
    y ∈ sortedDedup l ↔ y ∈ l := by
  induction l with
  | nil => simp [sortedDedup]
  | cons a t ih =>
    simp only [sortedDedup, List.foldr_cons] at *
    rw [mem_insertSorted, ih, List.mem_cons]

/-- Two strictly increasing lists with the same members are equal. -/
theorem strictSorted_ext {l l' : List Nat} (h : strictSorted l = true)
    (h' : strictSorted l' = true) (hm : ∀ x, x ∈ l ↔ x ∈ l') : l = l' := by
  induction l generalizing l' with
  | nil =>
    cases l' with
    | nil => rfl
    | cons b t' => exact absurd ((hm b).mpr (by simp)) (by simp)
  | cons a t ih =>
    cases l' with
    | nil => exact absurd ((hm a).mp (by simp)) (by simp)
    | cons b t' =>
      have hab : a = b := by
        have ha' : a ∈ b :: t' := (hm a).mp (by simp)
        have hb' : b ∈ a :: t := (hm b).mpr (by simp)
        rcases List.mem_cons.mp ha' with rfl | ha2
        · rfl
        · rcases List.mem_cons.mp hb' with rfl | hb2
          · rfl
          · have := strictSorted_head_lt h' a ha2
            have := strictSorted_head_lt h b hb2
            omega
      subst hab
      have : t = t' := by
        refine ih (strictSorted_cons h) (strictSorted_cons h') (fun x => ?_)
        constructor
        · intro hx
          have hax := strictSorted_head_lt h x hx
          rcases List.mem_cons.mp ((hm x).mp (List.mem_cons_of_mem _ hx)) with
            rfl | h2
          · omega
          · exact h2
        · intro hx
          have hax := strictSorted_head_lt h' x hx
          rcases List.mem_cons.mp ((hm x).mpr (List.mem_cons_of_mem _ hx)) with
            rfl | h2
          · omega
          · exact h2
      rw [this]

/-- Merging already-present elements is a no-op. -/
theorem sortedDedup_append_of_subset {old new : List Nat}
    (hs : strictSorted old = true) (hsub : ∀ x ∈ new, x ∈ old) :
    sortedDedup (old ++ new) = old := by
  refine strictSorted_ext (strictSorted_sortedDedup _) hs (fun x => ?_)
  rw [mem_sortedDedup, List.mem_append]
  constructor
  · rintro (h | h)
    · exact h
    · exact hsub x h
  · exact Or.inl

/-! ### `getD` plumbing -/

theorem getD_map_range {α : Type} (f : Nat → α) {n i : Nat} (h : i < n)
    (d : α) : ((List.range n).map f).getD i d = f i := by
  rw [List.getD_eq_getElem _ _ (by simpa using h)]
  simp

theorem getD_replicate_lt {α : Type} (a d : α) {n i : Nat} (h : i < n) :
    (List.replicate n a).getD i d = a := by
  rw [List.getD_eq_getElem _ _ (by simpa using h)]
  simp

theorem getD_set_self {α : Type} {l : List α} {j : Nat} (h : j < l.length)
    (v d : α) : (l.set j v).getD j d = v := by
  rw [List.getD_eq_getElem _ _ (by simpa using h)]
  simp [List.getElem_set_self]

theorem getD_set_ne {α : Type} {l : List α} : ∀ {i j : Nat}, i ≠ j →
    ∀ (v d : α), (l.set j v).getD i d = l.getD i d := by
  induction l with
  | nil => intro i j _ v d; rfl
  | cons a t ih =>
    intro i j h v d
    cases j with
    | zero =>
      cases i with
      | zero => exact absurd rfl h
      | succ i' => rfl
    | succ j' =>
      cases i with
      | zero => rfl
      | succ i' =>
        simp only [List.set_cons_succ, List.getD_cons_succ]
        exact ih (fun hh => h (by omega)) v d

/-! ### Facts about well-formed states -/

theorem wf_nrows_nonneg {s : State} (hwf : WF s) {i : Nat}
    (hi : i < s.datasets.length) : 0 ≤ s.dataset_n_rows.getD i 0 := by
  obtain ⟨-, -, -, -, -, -, hper⟩ := hwf
  obtain ⟨hinit, heq, hsort, hbnd, -⟩ := hper i (List.mem_range.mpr hi)
  have hlen : (s.dataset_removed_rows.getD i []).length ≤
      (s.dataset_initial_n_rows.getD i 0).toNat := by
    refine strictSorted_length_le _ hsort (fun x hx => ?_)
    have := hbnd x hx
    omega
  omega

theorem wf_all_nonneg {s : State} (hwf : WF s) :
    ∀ x ∈ s.dataset_n_rows, 0 ≤ x := by
  intro x hx
  obtain ⟨i, hi, hget⟩ := List.getElem_of_mem hx
  have hlen : s.dataset_n_rows.length = s.datasets.length := hwf.2.1
  have := wf_nrows_nonneg hwf (i := i) (by omega)
  rwa [List.getD_eq_getElem _ _ hi, hget] at this

theorem wf_start_getD {s : State} (hwf : WF s) {i : Nat}
    (hi : i < s.datasets.length) :
    s.dataset_start_example.getD i 0 = sumTake s.dataset_n_rows i := by
  have h := hwf.2.2.2.1
  rw [h, cumStarts_getD 0 _ i (by rw [hwf.2.1]; exact hi)]
  ring

theorem wf_stop_getD {s : State} (hwf : WF s) {i : Nat}
    (hi : i < s.datasets.length) :
    s.dataset_stop_example.getD i 0 = sumTake s.dataset_n_rows (i + 1) := by
  have h := hwf.2.2.2.2.1
  rw [h, cumStops_getD 0 _ i (by rw [hwf.2.1]; exact hi)]
  ring

theorem wf_start_nonneg {s : State} (hwf : WF s) {i : Nat}
    (hi : i < s.datasets.length) : 0 ≤ s.dataset_start_example.getD i 0 := by
  rw [wf_start_getD hwf hi]
  have : sumTake s.dataset_n_rows 0 ≤ sumTake s.dataset_n_rows i :=
    sumTake_mono _ (wf_all_nonneg hwf) (Nat.zero_le _)
  simpa [sumTake_zero] using this

theorem wf_stop_le_total {s : State} (hwf : WF s) {i : Nat}
    (hi : i < s.datasets.length) :
    s.dataset_stop_example.getD i 0 ≤ s.total_n_rows := by
  rw [wf_stop_getD hwf hi, hwf.2.2.2.2.2.1]
  have hle : sumTake s.dataset_n_rows (i + 1) ≤
      sumTake s.dataset_n_rows s.dataset_n_rows.length :=
    sumTake_mono _ (wf_all_nonneg hwf) (by rw [hwf.2.1]; omega)
  rwa [sumTake_of_ge _ (le_refl _)] at hle

theorem wf_stop_sub_start {s : State} (hwf : WF s) {i : Nat}
    (hi : i < s.datasets.length) :
    s.dataset_stop_example.getD i 0 - s.dataset_start_example.getD i 0 =
      s.dataset_n_rows.getD i 0 := by
  rw [wf_start_getD hwf hi, wf_stop_getD hwf hi,
    sumTake_succ _ _ (by rw [hwf.2.1]; exact hi)]
  ring

/-! ### `_get_row_dataset` -/

theorem getRowDataset_some {s : State} {row : Int} {i : Nat}
    (h : getRowDataset s row = some i) :
    i < s.datasets.length ∧ s.dataset_start_example.getD i 0 ≤ row ∧
      row < s.dataset_stop_example.getD i 0 := by
  have hmem := List.mem_of_find?_eq_some h
  have hp := List.find?_some h
  simp only [decide_eq_true_eq] at hp
  exact ⟨List.mem_range.mp hmem, hp⟩

/-- Out-of-bounds rows are in no dataset's range (the `-1` branch). -/
theorem getRowDataset_none {s : State} (hwf : WF s) {row : Int}
    (h : row < 0 ∨ s.total_n_rows ≤ row) : getRowDataset s row = none := by
  rw [getRowDataset, List.find?_eq_none]
  intro i hi
  have hi' := List.mem_range.mp hi
  simp only [decide_eq_true_eq, not_and, not_lt]
  intro hle
  rcases h with hneg | hbig
  · exact absurd (le_trans (wf_start_nonneg hwf hi') hle) (by omega)
  · have := wf_stop_le_total hwf hi'
    omega

/-- A point of `[0, sum ns)` lies in exactly one of the partial-sum
intervals. -/
theorem exists_interval (ns : List Int) (h : ∀ x ∈ ns, 0 ≤ x) (r : Int)
    (h0 : 0 ≤ r) (hr : r < sumInt ns) :
    ∃ i, i < ns.length ∧ sumTake ns i ≤ r ∧ r < sumTake ns (i + 1) := by
  induction ns generalizing r with
  | nil => simp [sumInt] at hr; omega
  | cons n rest ih =>
    by_cases hn : r < n
    · exact ⟨0, by simp, by simpa [sumTake_zero] using h0,
        by simpa [sumTake, sumInt] using hn⟩
    · have hn0 : 0 ≤ n := h n (by simp)
      have hrest : r - n < sumInt rest := by
        simp only [sumInt] at hr; omega
      obtain ⟨i, hi, h1, h2⟩ :=
        ih (fun y hy => h y (by simp [hy])) (r - n) (by omega) hrest
      have e1 : sumTake (n :: rest) (i + 1) = n + sumTake rest i := rfl
      have e2 : sumTake (n :: rest) (i + 1 + 1) = n + sumTake rest (i + 1) := rfl
      exact ⟨i + 1, by simpa using Nat.succ_lt_succ hi, by omega, by omega⟩

/-- A well-formed state satisfies the claimed index invariant. -/
theorem wf_inv {s : State} (hwf : WF s) : Inv s := by
  have hlen := hwf.2.1
  refine ⟨?_, ?_, ?_, hwf.2.2.2.2.2.1, ?_, ?_⟩
  · intro hn
    rw [wf_start_getD hwf hn, sumTake_zero]
  · intro i hi
    have hi' := List.mem_range.mp hi
    rw [wf_start_getD hwf hi', wf_stop_getD hwf hi',
      sumTake_succ _ _ (by omega)]
  · intro i hi hi1
    rw [wf_start_getD hwf hi1, wf_stop_getD hwf (List.mem_range.mp hi)]
  · intro r
    constructor
    · rintro ⟨h0, hr⟩
      obtain ⟨i, hi, h1, h2⟩ := exists_interval s.dataset_n_rows
        (wf_all_nonneg hwf) r h0 (by rwa [hwf.2.2.2.2.2.1] at hr)
      rw [hlen] at hi
      exact ⟨i, hi, by rwa [wf_start_getD hwf hi], by rwa [wf_stop_getD hwf hi]⟩
    · rintro ⟨i, hi, h1, h2⟩
      have ha := wf_start_nonneg hwf hi
      have hb := wf_stop_le_total hwf hi
      omega
  · intro i j hi hj r hsi hei hsj hej
    by_contra hne
    rcases Nat.lt_or_ge i j with hij | hij
    · have : sumTake s.dataset_n_rows (i + 1) ≤ sumTake s.dataset_n_rows j :=
        sumTake_mono _ (wf_all_nonneg hwf) (by omega)
      rw [wf_stop_getD hwf hi] at hei
      rw [wf_start_getD hwf hj] at hsj
      omega
    · have hij' : j < i := by omega
      have : sumTake s.dataset_n_rows (j + 1) ≤ sumTake s.dataset_n_rows i :=
        sumTake_mono _ (wf_all_nonneg hwf) (by omega)
      rw [wf_stop_getD hwf hj] at hej
      rw [wf_start_getD hwf hi] at hsi
      omega

/-! ### Construction and preservation of well-formedness -/

theorem mkState_wf {ds : List Dataset} {nr : List Int}
    {rb cb : Option Nat} {s : State} (h : mkState ds nr rb cb = .ok s)
    (hnn : ∀ x ∈ nr, 0 ≤ x) (hlen : nr.length = ds.length)
    (hcap : ∀ i ∈ List.range s.datasets.length,
      s.dataset_initial_n_rows.getD i 0 ≤
        ((s.datasets.getD i default).rows.length * s.dataset_pack_size : Int)) :
    WF s := by
  cases ds with
  | nil => simp [mkState] at h
  | cons d0 rest =>
    simp only [mkState] at h
    split at h
    · exact absurd h (by simp)
    · split at h
      · exact absurd h (by simp)
      · split at h
        · exact absurd h (by simp)
        · simp only [Except.ok.injEq] at h
          subst h
          refine ⟨hlen, hlen, by simp, ?_, ?_, rfl, ?_⟩
          · simp only
            rw [List.take_of_length_le (by simp [hlen])]
          · simp only
            rw [List.take_of_length_le (by simp [hlen])]
          · intro i hi
            have hi' := List.mem_range.mp hi
            refine ⟨?_, ?_, ?_, ?_, hcap i hi⟩
            · refine hnn _ ?_
              rw [List.getD_eq_getElem _ _ (by rw [hlen]; exact hi')]
              exact List.getElem_mem _
            · rw [getD_replicate_lt _ _ hi']
              simp
            · rw [getD_replicate_lt _ _ hi']
              rfl
            · rw [getD_replicate_lt _ _ hi']
              simp

theorem collectRemovals_length {s : State} : ∀ {rows : List Int}
    {acc acc' : List (List Nat)}, collectRemovals s rows acc = .ok acc' →
    acc'.length = acc.length := by
  intro rows
  induction rows with
  | nil =>
    intro acc acc' h
    simp only [collectRemovals, Except.ok.injEq] at h
    rw [h]
  | cons row rest ih =>
    intro acc acc' h
    simp only [collectRemovals] at h
    cases hg : getRowDataset s row with
    | none => rw [hg] at h; simp at h
    | some i =>
      rw [hg] at h
      have := ih h
      rwa [List.length_set] at this

/-- Every index collected by phase 1 is either inherited from the
accumulator or a fresh relative index below the width of its dataset's
current range. -/
theorem collectRemovals_mem {s : State} : ∀ {rows : List Int}
    {acc acc' : List (List Nat)}, collectRemovals s rows acc = .ok acc' →
    ∀ i x, x ∈ acc'.getD i [] → x ∈ acc.getD i [] ∨
      (i < s.datasets.length ∧
        (x : Int) < s.dataset_stop_example.getD i 0 -
          s.dataset_start_example.getD i 0) := by
  intro rows
  induction rows with
  | nil =>
    intro acc acc' h i x hx
    simp only [collectRemovals, Except.ok.injEq] at h
    rw [h]
    exact Or.inl hx
  | cons row rest ih =>
    intro acc acc' h i x hx
    simp only [collectRemovals] at h
    cases hg : getRowDataset s row with
    | none => rw [hg] at h; simp at h
    | some i0 =>
      rw [hg] at h
      obtain ⟨hi0, hs0, hs1⟩ := getRowDataset_some hg
      rcases ih h i x hx with hold | hnew
      · by_cases hii : i = i0
        · subst hii
          by_cases hlt : i < acc.length
          · rw [getD_set_self hlt] at hold
            rcases List.mem_append.mp hold with h1 | h2
            · exact Or.inl h1
            · refine Or.inr ⟨hi0, ?_⟩
              have hx2 : x = (row - s.dataset_start_example.getD i 0).toNat :=
                by simpa using h2
              omega
          · rw [List.set_eq_of_length_le (Nat.le_of_not_lt hlt)] at hold
            exact Or.inl hold
        · rw [getD_set_ne hii] at hold
          exact Or.inl hold
      · exact Or.inr hnew

/-- A successful `removeRows` preserves well-formedness. -/
theorem removeRows_wf {s s' : State} {rows : List Int} (hwf : WF s)
    (h : removeRows s rows = .ok s') : WF s' := by
  simp only [removeRows] at h
  split at h
  · exact absurd h (by simp)
  case _ newRem heq =>
    simp only [Except.ok.injEq] at h
    subst h
    have hlen_init := hwf.1
    have hlen_nrows := hwf.2.1
    have hlen_rem := hwf.2.2.1
    have hper := hwf.2.2.2.2.2.2
    have hnewlen : newRem.length = s.datasets.length := by
      have := collectRemovals_length heq
      rwa [List.length_replicate] at this
    have hdrop_rem : s.dataset_removed_rows.drop s.datasets.length = [] :=
      List.drop_eq_nil_of_le (le_of_eq hlen_rem)
    have hdrop_nrows : s.dataset_n_rows.drop s.datasets.length = [] :=
      List.drop_eq_nil_of_le (le_of_eq hlen_nrows)
    refine ⟨?_, ?_, ?_, ?_, ?_, ?_, ?_⟩
    · simpa [hdrop_rem, hdrop_nrows] using hlen_init
    · simp [hdrop_rem, hdrop_nrows]
    · simp [hdrop_rem, hdrop_nrows]
    · simp [hdrop_rem, hdrop_nrows]
    · simp [hdrop_rem, hdrop_nrows]
    · simp [hdrop_rem, hdrop_nrows]
    · intro i hi
      simp only [List.mem_range] at hi
      dsimp only at hi ⊢
      simp only [hdrop_rem, hdrop_nrows, List.append_nil]
      rw [getD_map_range _ hi, getD_map_range _ hi]
      obtain ⟨hinit, heqn, hsort, hbnd, hcap⟩ := hper i (List.mem_range.mpr hi)
      by_cases hpos : (newRem.getD i []).length > 0
      · simp only [if_pos hpos]
        have hbnd' : ∀ r ∈ sortedDedup (s.dataset_removed_rows.getD i [] ++
            newRem.getD i []), (r : Int) < s.dataset_initial_n_rows.getD i 0 := by
          intro r hr
          rcases List.mem_append.mp (mem_sortedDedup.mp hr) with h1 | h2
          · exact hbnd r h1
          · rcases collectRemovals_mem heq i r h2 with h3 | ⟨-, h4⟩
            · rw [getD_replicate_lt _ _ hi] at h3
              simp at h3
            · have := wf_stop_sub_start hwf hi
              have hl : ((s.dataset_removed_rows.getD i []).length : Int) ≥ 0 :=
                by positivity
              omega
        exact ⟨hinit, trivial, strictSorted_sortedDedup _, hbnd', hcap⟩
      · simp only [if_neg hpos]
        exact ⟨hinit, heqn, hsort, hbnd, hcap⟩

/-! ### Counting kept rows -/

theorem countP_not_add (p : Nat → Bool) (l : List Nat) :
    l.countP p + l.countP (fun a => !(p a)) = l.length := by
  induction l with
  | nil => simp
  | cons a t ih =>
    simp only [List.countP_cons, List.length_cons]
    cases h : p a <;> simp [h] <;> omega

theorem countP_or_disjoint (p q : Nat → Bool) (l : List Nat)
    (h : ∀ x ∈ l, ¬(p x = true ∧ q x = true)) :
    l.countP (fun x => p x || q x) = l.countP p + l.countP q := by
  induction l with
  | nil => simp
  | cons a t ih =>
    have ht := ih (fun x hx => h x (by simp [hx]))
    simp only [List.countP_cons, ht]
    cases hp : p a <;> cases hq : q a <;> simp
    · omega
    · omega
    · exact absurd ⟨hp, hq⟩ (h a (by simp))

theorem count_range (x m : Nat) :
    List.count x (List.range m) = if x < m then 1 else 0 := by
  induction m with
  | zero => simp
  | succ m ih =>
    rw [List.range_succ, List.count_append, ih, List.count_singleton]
    by_cases h2 : x = m
    · subst h2
      rw [if_neg (Nat.lt_irrefl _), if_pos (Nat.lt_succ_self _),
        if_pos (by simp)]
    · rw [if_neg (show ¬(m == x) = true by
        simpa using fun hh => h2 hh.symm)]
      by_cases h : x < m
      · rw [if_pos h, if_pos (show x < m + 1 by omega)]
      · rw [if_neg h, if_neg (show ¬x < m + 1 by omega)]

theorem range_split (a b : Nat) (h : a ≤ b) :
    List.range b = List.range a ++ List.range' a (b - a) := by
  rw [List.range_eq_range', List.range_eq_range']
  have happ := List.range'_append 0 a (b - a) 1
  simp only [Nat.zero_add, Nat.one_mul] at happ
  rw [happ]
  congr 1
  omega

/-- Counting range elements that lie in a duplicate-free list is counting
the list's elements below the bound. -/
theorem countP_mem_range (rem : List Nat) (m : Nat) (hnd : rem.Nodup) :
    (List.range m).countP (fun j => decide (j ∈ rem)) =
      rem.countP (fun r => decide (r < m)) := by
  induction rem with
  | nil => simp
  | cons a rest ih =>
    have hnd' := List.nodup_cons.mp hnd
    have hcong : (List.range m).countP (fun j => decide (j ∈ a :: rest)) =
        (List.range m).countP (fun j => decide (j = a) || decide (j ∈ rest)) := by
      refine List.countP_congr (fun x _ => ?_)
      simp [List.mem_cons]
    rw [hcong, countP_or_disjoint _ _ _ (fun x _ hx => ?_), ih hnd'.2,
      List.countP_cons]
    · have hcount : (List.range m).countP (fun j => decide (j = a)) =
          List.count a (List.range m) := by
        rw [List.count]
        refine List.countP_congr (fun x _ => ?_)
        by_cases hxa : x = a
        · subst hxa; simp
        · simp [beq_iff_eq, hxa]
      rw [hcount, count_range]
      by_cases h : a < m
      · rw [if_pos h, if_pos (show decide (a < m) = true by simpa using h)]
        omega
      · rw [if_neg h, if_neg (show ¬decide (a < m) = true by simpa using h)]
        omega
    · simp only [decide_eq_true_eq] at hx
      exact hnd'.1 (hx.1 ▸ hx.2)

/-- The number of physical rows kept by the spec's keep-mask predicate:
rows below `init` minus the removed ones. -/
theorem countP_kept (cap : Nat) (init : Int) (rem : List Nat)
    (hinit : 0 ≤ init) (hcap : init ≤ (cap : Int))
    (hs : strictSorted rem = true)
    (hb : ∀ r ∈ rem, (r : Int) < init) :
    (List.range cap).countP
        (fun (j : Nat) => decide ((j : Int) < init) && !(decide (j ∈ rem))) =
      init.toNat - rem.length := by
  set m := init.toNat with hm
  have hmc : m ≤ cap := by omega
  rw [range_split m cap hmc, List.countP_append]
  have hzero : (List.range' m (cap - m)).countP
      (fun (j : Nat) => decide ((j : Int) < init) && !(decide (j ∈ rem))) = 0 := by
    rw [List.countP_eq_zero]
    intro a ha
    have : m ≤ a := (List.mem_range'_1.mp ha).1
    simp only [Bool.and_eq_true, decide_eq_true_eq]
    rintro ⟨h1, -⟩
    omega
  rw [hzero, Nat.add_zero]
  have hcong : (List.range m).countP
      (fun (j : Nat) => decide ((j : Int) < init) && !(decide (j ∈ rem))) =
      (List.range m).countP (fun (j : Nat) => !(decide (j ∈ rem))) := by
    refine List.countP_congr (fun x hx => ?_)
    have := List.mem_range.mp hx
    simp [show (x : Int) < init by omega]
  rw [hcong]
  have hdual := countP_mem_range rem m (strictSorted_nodup hs)
  have hall : rem.countP (fun r => decide (r < m)) = rem.length :=
    List.countP_eq_length.mpr (fun r hr => by
      have := hb r hr
      simp only [decide_eq_true_eq]
      omega)
  have hsum := countP_not_add (fun j => decide (j ∈ rem)) (List.range m)
  rw [hdual, hall] at hsum
  have hlen : rem.length ≤ m :=
    strictSorted_length_le m hs (fun x hx => by have := hb x hx; omega)
  simp only [List.length_range] at hsum
  omega

/-! ### The `get_column` keep-mask -/

theorem foldSetFalse_length (rem : List Nat) (m : List Bool) :
    (rem.foldl (fun mm r => mm.set r false) m).length = m.length := by
  induction rem generalizing m with
  | nil => rfl
  | cons r rest ih =>
    simp only [List.foldl_cons]
    rw [ih, List.length_set]

theorem foldSetFalse_getD (rem : List Nat) (m : List Bool) (j : Nat)
    (hj : j < m.length) :
    (rem.foldl (fun mm r => mm.set r false) m).getD j false =
      (m.getD j false && !(decide (j ∈ rem))) := by
  induction rem generalizing m with
  | nil => simp
  | cons r rest ih =>
    simp only [List.foldl_cons]
    rw [ih (m.set r false) (by rw [List.length_set]; exact hj)]
    by_cases hjr : j = r
    · subst hjr
      rw [getD_set_self hj]
      simp
    · rw [getD_set_ne hjr]
      simp [List.mem_cons, hjr]

/-- The keep-mask built by `get_column` (ones, padding zeroed, removed
rows zeroed) equals the spec's pointwise keep predicate. -/
theorem codeMask_eq (cap : Nat) (init : Int) (rem : List Nat) :
    rem.foldl (fun m r => m.set r false)
        ((List.range cap).map (fun (j : Nat) => decide ((j : Int) < init))) =
      (List.range cap).map
        (fun (j : Nat) => decide ((j : Int) < init) && !(decide (j ∈ rem))) := by
  apply List.ext_getElem
  · rw [foldSetFalse_length]
    simp
  · intro i h1 h2
    have hi : i < cap := by simpa using h2
    have hlen : i < ((List.range cap).map
        (fun (j : Nat) => decide ((j : Int) < init))).length := by simpa using hi
    rw [← List.getD_eq_getElem _ false h1, ← List.getD_eq_getElem _ false h2,
      foldSetFalse_getD _ _ _ hlen, getD_map_range _ hi, getD_map_range _ hi]

theorem maskFilter_length : ∀ (m : List Bool) (xs : List Bool),
    xs.length = m.length →
    (maskFilter xs m).length = m.countP (fun b => b) := by
  intro m
  induction m with
  | nil =>
    intro xs h
    cases xs with
    | nil => rfl
    | cons x xs' => simp at h
  | cons b m' ih =>
    intro xs h
    cases xs with
    | nil => simp at h
    | cons x xs' =>
      simp only [List.length_cons, Nat.succ.injEq] at h
      simp only [maskFilter, List.countP_cons]
      cases b
      · simpa using ih xs' h
      · simpa using ih xs' h

theorem unpackWords_length (pack : Nat) (ws : List Nat) :
    (unpackWords pack ws).length = ws.length * pack := by
  induction ws with
  | nil => simp [unpackWords]
  | cons w rest ih =>
    simp only [unpackWords, List.flatMap_cons, List.length_append,
      List.length_map, List.length_range, List.length_cons] at *
    rw [ih]
    ring

theorem colOfDataset_length (d : Dataset) (col : Nat) :
    (colOfDataset d col).length = d.rows.length := by
  simp [colOfDataset]

/-- The number of rows a dataset contributes to `get_column`. -/
theorem keptColumn_length (pack : Nat) (d : Dataset) (col : Nat) (init : Int)
    (rem : List Nat) (hinit : 0 ≤ init)
    (hcap : init ≤ (d.rows.length * pack : Int))
    (hs : strictSorted rem = true) (hb : ∀ r ∈ rem, (r : Int) < init) :
    (keptColumn pack d col init rem).length = init.toNat - rem.length := by
  rw [keptColumn, maskFilter_length _ _ (by
    rw [unpackWords_length, colOfDataset_length]
    simp)]
  rw [List.countP_map]
  have hcong : (List.range (d.rows.length * pack)).countP
      ((fun b => b) ∘ (fun (j : Nat) =>
        decide ((j : Int) < init) && !(decide (j ∈ rem)))) =
      (List.range (d.rows.length * pack)).countP
      (fun (j : Nat) => decide ((j : Int) < init) && !(decide (j ∈ rem))) :=
    List.countP_congr (fun x _ => Iff.rfl)
  rw [hcong, countP_kept _ init rem hinit (by exact_mod_cast hcap) hs hb]

theorem sumTake_nonneg (ns : List Int) (h : ∀ x ∈ ns, 0 ≤ x) (k : Nat) :
    0 ≤ sumTake ns k := by
  have := sumTake_mono ns h (Nat.zero_le k)
  simpa [sumTake_zero] using this

/-- One `get_column` iteration rewrites the dataset's slice of the result
with exactly the rows the spec keeps. -/
theorem gcStep_eq {s : State} (hwf : WF s) (col : Nat) {i : Nat}
    (hi : i < s.datasets.length) {acc : List Bool}
    (hacc : acc.length = s.total_n_rows.toNat) :
    gcStep s col i acc = .ok
      (acc.take (sumTake s.dataset_n_rows i).toNat ++
        keptColumn s.dataset_pack_size (s.datasets.getD i default) col
          (s.dataset_initial_n_rows.getD i 0) (s.dataset_removed_rows.getD i []) ++
        acc.drop (sumTake s.dataset_n_rows (i + 1)).toNat) := by
  obtain ⟨hinit, hnre, hsort, hbnd, hcap⟩ :=
    hwf.2.2.2.2.2.2 i (List.mem_range.mpr hi)
  have hnn := wf_all_nonneg hwf
  have htot : s.total_n_rows = sumInt s.dataset_n_rows := hwf.2.2.2.2.2.1
  have hst1 : sumTake s.dataset_n_rows (i + 1) ≤ sumInt s.dataset_n_rows := by
    have := sumTake_mono s.dataset_n_rows hnn
      (show i + 1 ≤ s.dataset_n_rows.length by rw [hwf.2.1]; omega)
    rwa [sumTake_of_ge _ (le_refl _)] at this
  have hst0 : sumTake s.dataset_n_rows i ≤ sumTake s.dataset_n_rows (i + 1) :=
    sumTake_mono _ hnn (by omega)
  have hsnn := sumTake_nonneg s.dataset_n_rows hnn
  have hsucc := sumTake_succ s.dataset_n_rows i (by rw [hwf.2.1]; exact hi)
  have hnri := wf_nrows_nonneg hwf hi
  simp only [gcStep, codeMask_eq]
  have hkl := keptColumn_length s.dataset_pack_size (s.datasets.getD i default)
    col (s.dataset_initial_n_rows.getD i 0) (s.dataset_removed_rows.getD i [])
    hinit hcap hsort hbnd
  simp only [keptColumn] at hkl
  have hremlen : ((s.dataset_removed_rows.getD i []).length : Int) ≤
      s.dataset_initial_n_rows.getD i 0 := by
    have := strictSorted_length_le (s.dataset_initial_n_rows.getD i 0).toNat
      hsort (fun x hx => by
        have := hbnd x hx
        omega)
    omega
  have hg0 := hsnn i
  have hg1 := hsnn (i + 1)
  rw [wf_start_getD hwf hi, wf_stop_getD hwf hi]
  have hb : min (sumTake s.dataset_n_rows (i + 1)).toNat acc.length =
      (sumTake s.dataset_n_rows (i + 1)).toNat := by
    rw [hacc]
    omega
  rw [hb]
  rw [if_pos ⟨by omega, by rw [hkl]; omega⟩]
  simp only [keptColumn]

/-- Running the `get_column` loop over datasets `k, k+1, …` replaces
everything from offset `start[k]` on with the spec's kept rows. -/
theorem gcLoop_eq {s : State} (hwf : WF s) (col : Nat) :
    ∀ (m k : Nat) (acc : List Bool), k + m = s.datasets.length →
    acc.length = s.total_n_rows.toNat →
    gcLoop s col (List.range' k m) acc = .ok
      (acc.take (sumTake s.dataset_n_rows k).toNat ++
        (List.range' k m).flatMap (fun i => keptColumn s.dataset_pack_size
          (s.datasets.getD i default) col (s.dataset_initial_n_rows.getD i 0)
          (s.dataset_removed_rows.getD i [])) ++
        acc.drop (sumTake s.dataset_n_rows (k + m)).toNat) := by
  intro m
  induction m with
  | zero =>
    intro k acc hk hacc
    simp only [List.range', gcLoop, List.flatMap_nil, List.append_nil,
      Nat.add_zero]
    rw [List.take_append_drop]
  | succ m ih =>
    intro k acc hk hacc
    have hkn : k < s.datasets.length := by omega
    have hnn := wf_all_nonneg hwf
    have hsnn := sumTake_nonneg s.dataset_n_rows hnn
    have hmono := fun {a b : Nat} (hab : a ≤ b) =>
      sumTake_mono s.dataset_n_rows hnn hab
    have hle_tot : ∀ j : Nat, sumTake s.dataset_n_rows j ≤
        sumInt s.dataset_n_rows := by
      intro j
      rcases Nat.le_total j s.dataset_n_rows.length with hj | hj
      · have := hmono hj
        rwa [sumTake_of_ge _ (le_refl _)] at this
      · rw [sumTake_of_ge _ hj]
    have hstep := gcStep_eq hwf col hkn hacc
    rw [show List.range' k (m + 1) = k :: List.range' (k + 1) m from rfl]
    simp only [gcLoop, hstep, List.flatMap_cons]
    set p := keptColumn s.dataset_pack_size (s.datasets.getD k default) col
      (s.dataset_initial_n_rows.getD k 0) (s.dataset_removed_rows.getD k [])
      with hp
    set a := (sumTake s.dataset_n_rows k).toNat with ha
    set b := (sumTake s.dataset_n_rows (k + 1)).toNat with hbdef
    have hab : a ≤ b := by
      have := hmono (show k ≤ k + 1 by omega)
      omega
    have hbl : b ≤ acc.length := by
      have := hle_tot (k + 1)
      rw [hacc, hwf.2.2.2.2.2.1]
      omega
    have haccl : a ≤ acc.length := le_trans hab hbl
    -- the length of the kept slice is exactly `b - a`
    have hplen : p.length = b - a := by
      obtain ⟨hinit, hnre, hsort, hbnd, hcap⟩ :=
        hwf.2.2.2.2.2.2 k (List.mem_range.mpr hkn)
      have hkl := keptColumn_length s.dataset_pack_size
        (s.datasets.getD k default) col (s.dataset_initial_n_rows.getD k 0)
        (s.dataset_removed_rows.getD k []) hinit hcap hsort hbnd
      have hremlen : ((s.dataset_removed_rows.getD k []).length : Int) ≤
          s.dataset_initial_n_rows.getD k 0 := by
        have := strictSorted_length_le (s.dataset_initial_n_rows.getD k 0).toNat
          hsort (fun x hx => by
            have := hbnd x hx
            omega)
        omega
      have hsucc := sumTake_succ s.dataset_n_rows k
        (by rw [hwf.2.1]; exact hkn)
      have hg0 := hsnn k
      have hg1 := hsnn (k + 1)
      rw [← hp] at hkl
      rw [hkl, ha, hbdef]
      omega
    have hacc' : (acc.take a ++ p ++ acc.drop b).length =
        s.total_n_rows.toNat := by
      simp only [List.length_append, List.length_take, List.length_drop]
      rw [hacc] at *
      omega
    rw [ih (k + 1) _ (by omega) hacc']
    congr 1
    have htake : (acc.take a ++ p ++ acc.drop b).take
        (sumTake s.dataset_n_rows (k + 1)).toNat = acc.take a ++ p := by
      rw [← hbdef]
      have hlen2 : (acc.take a ++ p).length = b := by
        simp only [List.length_append, List.length_take]
        omega
      rw [List.append_assoc, ← List.append_assoc]
      rw [show acc.take a ++ p ++ acc.drop b =
        (acc.take a ++ p) ++ acc.drop b from rfl]
      rw [← hlen2, List.take_left]
    have hdrop : (acc.take a ++ p ++ acc.drop b).drop
        (sumTake s.dataset_n_rows (k + 1 + m)).toNat = acc.drop
        (sumTake s.dataset_n_rows (k + (m + 1))).toNat := by
      set c := (sumTake s.dataset_n_rows (k + 1 + m)).toNat with hc
      have hcb : b ≤ c := by
        have := hmono (show k + 1 ≤ k + 1 + m by omega)
        omega
      have hlen2 : (acc.take a ++ p).length = b := by
        simp only [List.length_append, List.length_take]
        omega
      rw [show acc.take a ++ p ++ acc.drop b =
        (acc.take a ++ p) ++ acc.drop b from rfl]
      rw [show c = (acc.take a ++ p).length + (c - b) by rw [hlen2]; omega]
      rw [List.drop_append, List.drop_drop]
      congr 1
      rw [show k + (m + 1) = k + 1 + m by omega, ← hc]
      omega
    rw [htake, hdrop]
    simp [List.append_assoc]

/-- `get_column` computes exactly the spec's concatenation of kept rows
(`specGetColumn`). -/
theorem getColumn_eq_spec {s : State} (hwf : WF s) (col : Nat) :
    getColumn s col = .ok (specGetColumn s col) := by
  have htot : s.total_n_rows = sumInt s.dataset_n_rows := hwf.2.2.2.2.2.1
  have hnn0 : 0 ≤ s.total_n_rows := by
    rw [htot]
    exact sumInt_nonneg _ (wf_all_nonneg hwf)
  rw [getColumn, if_neg (by omega)]
  rw [show List.range s.datasets.length =
    List.range' 0 s.datasets.length from List.range_eq_range' _]
  rw [gcLoop_eq hwf col s.datasets.length 0 _ (by omega)
    (by rw [List.length_replicate])]
  rw [specGetColumn, show List.range s.datasets.length =
    List.range' 0 s.datasets.length from List.range_eq_range' _]
  congr 1
  rw [sumTake_zero]
  simp only [Int.toNat_zero, List.take_zero, List.nil_append, Nat.zero_add]
  rw [sumTake_of_ge _ (le_of_eq hwf.2.1), ← htot,
    List.drop_eq_nil_of_le (by rw [List.length_replicate])]
  simp

/-- The spec's column has exactly `total_n_rows` entries. -/
theorem specGetColumn_length {s : State} (hwf : WF s) (col : Nat) :
    (specGetColumn s col).length = s.total_n_rows.toNat := by
  have hnn := wf_all_nonneg hwf
  have hsnn := sumTake_nonneg s.dataset_n_rows hnn
  have haux : ∀ (m k : Nat), k + m = s.datasets.length →
      ((List.range' k m).flatMap (fun i => keptColumn s.dataset_pack_size
        (s.datasets.getD i default) col (s.dataset_initial_n_rows.getD i 0)
        (s.dataset_removed_rows.getD i []))).length =
      (sumTake s.dataset_n_rows (k + m)).toNat -
        (sumTake s.dataset_n_rows k).toNat := by
    intro m
    induction m with
    | zero =>
      intro k hk
      simp
    | succ m ih =>
      intro k hk
      have hkn : k < s.datasets.length := by omega
      obtain ⟨hinit, hnre, hsort, hbnd, hcap⟩ :=
        hwf.2.2.2.2.2.2 k (List.mem_range.mpr hkn)
      have hkl := keptColumn_length s.dataset_pack_size
        (s.datasets.getD k default) col (s.dataset_initial_n_rows.getD k 0)
        (s.dataset_removed_rows.getD k []) hinit hcap hsort hbnd
      have hremlen : ((s.dataset_removed_rows.getD k []).length : Int) ≤
          s.dataset_initial_n_rows.getD k 0 := by
        have := strictSorted_length_le (s.dataset_initial_n_rows.getD k 0).toNat
          hsort (fun x hx => by
            have := hbnd x hx
            omega)
        omega
      have hsucc := sumTake_succ s.dataset_n_rows k
        (by rw [hwf.2.1]; exact hkn)
      have hmono1 := sumTake_mono s.dataset_n_rows hnn
        (show k ≤ k + 1 by omega)
      have hmono2 := sumTake_mono s.dataset_n_rows hnn
        (show k + 1 ≤ k + 1 + m by omega)
      have hg0 := hsnn k
      have hg1 := hsnn (k + 1)
      have hg2 := hsnn (k + 1 + m)
      rw [show List.range' k (m + 1) = k :: List.range' (k + 1) m from rfl,
        List.flatMap_cons, List.length_append, hkl, ih (k + 1) (by omega),
        show k + (m + 1) = k + 1 + m by omega]
      omega
  rw [specGetColumn, show List.range s.datasets.length =
    List.range' 0 s.datasets.length from List.range_eq_range' _,
    haux s.datasets.length 0 (by omega), sumTake_zero]
  simp only [Nat.zero_add]
  rw [sumTake_of_ge _ (le_of_eq hwf.2.1), ← hwf.2.2.2.2.2.1]
  simp

/-! ### Failure and no-op behaviour of `remove_rows` -/

theorem collectRemovals_err {s : State} (hwf : WF s) : ∀ {rows : List Int}
    (acc : List (List Nat)), (∃ r ∈ rows, r < 0 ∨ s.total_n_rows ≤ r) →
    collectRemovals s rows acc = .error "IndexError: row index out of bounds" := by
  intro rows
  induction rows with
  | nil =>
    rintro acc ⟨r, hr, -⟩
    simp at hr
  | cons row rest ih =>
    rintro acc ⟨r, hr, hout⟩
    simp only [collectRemovals]
    rcases List.mem_cons.mp hr with rfl | hr'
    · rw [getRowDataset_none hwf hout]
    · cases hg : getRowDataset s row with
      | none => rfl
      | some i => exact ih _ ⟨r, hr', hout⟩

theorem getD_range_map_self {α : Type} (l : List α) (d : α) :
    (List.range l.length).map (fun i => l.getD i d) = l := by
  apply List.ext_getElem
  · simp
  · intro i h1 h2
    rw [List.getElem_map, List.getElem_range, List.getD_eq_getElem _ _ h2]

theorem getD_replicate_nil {α : Type} (n i : Nat) :
    (List.replicate n ([] : List α)).getD i [] = [] := by
  by_cases h : i < n
  · exact getD_replicate_lt _ _ h
  · rw [List.getD_eq_default]
    rw [List.length_replicate]
    omega

theorem collectRemovals_ok_mem {s : State} : ∀ {rows : List Int}
    {acc : List (List Nat)},
    (∀ r ∈ rows, ∃ i, getRowDataset s r = some i ∧
      (r - s.dataset_start_example.getD i 0).toNat ∈
        s.dataset_removed_rows.getD i []) →
    (∀ i x, x ∈ acc.getD i [] → x ∈ s.dataset_removed_rows.getD i []) →
    ∃ acc', collectRemovals s rows acc = .ok acc' ∧
      ∀ i x, x ∈ acc'.getD i [] → x ∈ s.dataset_removed_rows.getD i [] := by
  intro rows
  induction rows with
  | nil =>
    intro acc _ hacc
    exact ⟨acc, rfl, hacc⟩
  | cons row rest ih =>
    intro acc h hacc
    obtain ⟨i0, hg, hmem⟩ := h row (by simp)
    have hstep : ∀ i x, x ∈ (acc.set i0 (acc.getD i0 [] ++
        [(row - s.dataset_start_example.getD i0 0).toNat])).getD i [] →
        x ∈ s.dataset_removed_rows.getD i [] := by
      intro i x hx
      by_cases hii : i = i0
      · subst hii
        by_cases hlt : i < acc.length
        · rw [getD_set_self hlt] at hx
          rcases List.mem_append.mp hx with h1 | h2
          · exact hacc i x h1
          · have : x = (row - s.dataset_start_example.getD i 0).toNat := by
              simpa using h2
            rw [this]
            exact hmem
        · rw [List.set_eq_of_length_le (Nat.le_of_not_lt hlt)] at hx
          exact hacc i x hx
      · rw [getD_set_ne hii] at hx
        exact hacc i x hx
    obtain ⟨acc', hok, hmem'⟩ := ih (fun r hr => h r (by simp [hr])) hstep
    refine ⟨acc', ?_, hmem'⟩
    simp only [collectRemovals, hg]
    exact hok

/-- When every removed row maps to a relative index that is already in
its dataset's removed set, `remove_rows` leaves the state unchanged: the
merge is a set union and the recomputed bookkeeping equals the old one. -/
theorem removeRows_noop {s : State} (hwf : WF s) {R : List Int}
    (h : ∀ r ∈ R, ∃ i, getRowDataset s r = some i ∧
      (r - s.dataset_start_example.getD i 0).toNat ∈
        s.dataset_removed_rows.getD i []) :
    removeRows s R = .ok s := by
  obtain ⟨acc', hok, hmem⟩ := @collectRemovals_ok_mem s R
    (List.replicate s.datasets.length []) h
    (fun i x hx => by rw [getD_replicate_nil] at hx; exact absurd hx (by simp))
  simp only [removeRows, hok]
  have hlen_rem := hwf.2.2.1
  have hlen_nrows := hwf.2.1
  have hper := hwf.2.2.2.2.2.2
  have hrem_eq : ∀ i ∈ List.range s.datasets.length,
      (if (acc'.getD i []).length > 0 then
        sortedDedup (s.dataset_removed_rows.getD i [] ++ acc'.getD i [])
      else s.dataset_removed_rows.getD i []) =
      s.dataset_removed_rows.getD i [] := by
    intro i hi
    by_cases hpos : (acc'.getD i []).length > 0
    · rw [if_pos hpos]
      exact sortedDedup_append_of_subset (hper i hi).2.2.1 (hmem i)
    · rw [if_neg hpos]
  have hrem_head : (List.range s.datasets.length).map (fun i =>
      if (acc'.getD i []).length > 0 then
        sortedDedup (s.dataset_removed_rows.getD i [] ++ acc'.getD i [])
      else s.dataset_removed_rows.getD i []) = s.dataset_removed_rows := by
    rw [List.map_congr_left hrem_eq]
    have := getD_range_map_self s.dataset_removed_rows []
    rwa [hlen_rem] at this
  have hnrows_head : (List.range s.datasets.length).map (fun i =>
      if (acc'.getD i []).length > 0 then
        s.dataset_initial_n_rows.getD i 0 -
          ((s.dataset_removed_rows.getD i []).length : Int)
      else s.dataset_n_rows.getD i 0) = s.dataset_n_rows := by
    have hc : ∀ i ∈ List.range s.datasets.length,
        (if (acc'.getD i []).length > 0 then
          s.dataset_initial_n_rows.getD i 0 -
            ((s.dataset_removed_rows.getD i []).length : Int)
        else s.dataset_n_rows.getD i 0) = s.dataset_n_rows.getD i 0 := by
      intro i hi
      by_cases hpos : (acc'.getD i []).length > 0
      · rw [if_pos hpos, ← (hper i hi).2.1]
      · rw [if_neg hpos]
    rw [List.map_congr_left hc]
    have := getD_range_map_self s.dataset_n_rows 0
    rwa [hlen_nrows] at this
  rw [hrem_head, hnrows_head]
  rw [List.drop_eq_nil_of_le (le_of_eq hlen_rem),
    List.drop_eq_nil_of_le (le_of_eq hlen_nrows), List.append_nil,
    List.append_nil, ← hwf.2.2.2.1, ← hwf.2.2.2.2.1, ← hwf.2.2.2.2.2.1]

/-! ### Duplicate collapse in `build_row_mask` -/

theorem lor_lor_self (a b : Nat) : (a ||| b) ||| b = a ||| b :=
  Nat.eq_of_testBit_eq (fun i => by
    simp [Nat.testBit_lor, Bool.or_assoc, Bool.or_self])

theorem setMaskBits_dup (w x : Nat) (l : List Nat) (m : List Nat) :
    setMaskBits w (x :: x :: l) m = setMaskBits w (x :: l) m := by
  simp only [setMaskBits, List.length_set]
  by_cases h : x / w < m.length
  · rw [if_pos h, if_pos h, if_pos h]
    congr 1
    rw [List.set_set]
    congr 1
    rw [getD_set_self h, lor_lor_self]
  · rw [if_neg h, if_neg h]

/-- Repeating a row index in `build_row_mask` changes nothing: the OR of
an already-set bit is a no-op, so the mask has set semantics over rows. -/
theorem build_row_mask_dup (x : Nat) (l : List Nat) (n : Int) (w : Nat) :
    build_row_mask (x :: x :: l) n w = build_row_mask (x :: l) n w := by
  simp only [build_row_mask, setMaskBits_dup]

/-! ### `sum_rows` result dtype and the empty query -/

theorem sumRows_width {s : State} {rows : List Int}
    {out : Nat × List Nat × Nat} (h : sumRows s rows = .ok out) :
    out.1 = columnSumDtype rows.length := by
  simp only [sumRows] at h
  split at h
  · exact absurd h (by simp)
  · split at h
    · exact absurd h (by simp)
    · split at h
      · exact absurd h (by simp)
      · split at h
        · exact absurd h (by simp)
        · split at h
          · exact absurd h (by simp)
          · simp only [Except.ok.injEq] at h
            rw [← h]

theorem buildMasks_empty (s : State) (n : Nat) : ∀ (idxs : List Nat),
    buildMasks s (List.replicate n []) idxs =
      .ok (idxs.map (fun _ => [])) := by
  intro idxs
  induction idxs with
  | nil => rfl
  | cons i rest ih =>
    simp [buildMasks, getD_replicate_nil, ih]

theorem dsLoop_skip (s : State) (width cbs ncb : Nat)
    (masks : List (List Nat)) : ∀ (idxs : List Nat) (acc : List Nat × Nat),
    (∀ i ∈ idxs, masks.getD i [] = []) →
    dsLoop s width cbs ncb masks idxs acc = .ok acc := by
  intro idxs
  induction idxs with
  | nil => intro acc _; rfl
  | cons i rest ih =>
    intro acc hmask
    simp only [dsLoop, hmask i (by simp)]
    exact ih acc (fun j hj => hmask j (by simp [hj]))

/-- `sum_rows([])` touches no dataset: an all-zero result of the narrowest
dtype and zero block loads. -/
theorem sumRows_empty {s : State} {cbs : Nat}
    (hc : s.col_block_size = some cbs) (hnz : cbs ≠ 0) :
    sumRows s [] = .ok (8, List.replicate s.dataset_n_cols 0, 0) := by
  have hmask : ∀ i ∈ List.range s.datasets.length,
      ((List.range s.datasets.length).map
        (fun _ => ([] : List Nat))).getD i [] = [] := by
    intro i hi
    exact getD_map_range _ (List.mem_range.mp hi) _
  simp only [sumRows, sortInts, List.foldr_nil, locateRows,
    buildMasks_empty, hc, if_neg hnz,
    dsLoop_skip s _ cbs _ _ _ _ hmask]
  rfl

/-- `_column_sum_dtype` picks the smallest of the four unsigned widths whose
maximum value is at least `n` (for any feasible `n < 2^64`). -/
theorem columnSumDtype_smallest (n : Nat) (h : n < 2 ^ 64) :
    columnSumDtype n ∈ ([8, 16, 32, 64] : List Nat) ∧
    n ≤ 2 ^ columnSumDtype n - 1 ∧
    ∀ w ∈ ([8, 16, 32, 64] : List Nat), n ≤ 2 ^ w - 1 →
      columnSumDtype n ≤ w := by
  have e8 : (2 : Nat) ^ 8 = 256 := by norm_num
  have e16 : (2 : Nat) ^ 16 = 65536 := by norm_num
  have e32 : (2 : Nat) ^ 32 = 4294967296 := by norm_num
  unfold columnSumDtype
  by_cases h8 : n ≤ 2 ^ 8 - 1
  · rw [if_pos h8]
    refine ⟨by simp, h8, fun w hw hnw => ?_⟩
    simp only [List.mem_cons, List.not_mem_nil, or_false] at hw
    rcases hw with rfl | rfl | rfl | rfl <;> omega
  · rw [if_neg h8]
    by_cases h16 : n ≤ 2 ^ 16 - 1
    · rw [if_pos h16]
      refine ⟨by simp, h16, fun w hw hnw => ?_⟩
      simp only [List.mem_cons, List.not_mem_nil, or_false] at hw
      rcases hw with rfl | rfl | rfl | rfl <;> omega
    · rw [if_neg h16]
      by_cases h32 : n ≤ 2 ^ 32 - 1
      · rw [if_pos h32]
        refine ⟨by simp, h32, fun w hw hnw => ?_⟩
        simp only [List.mem_cons, List.not_mem_nil, or_false] at hw
        rcases hw with rfl | rfl | rfl | rfl <;> omega
      · rw [if_neg h32]
        refine ⟨by simp, by omega, fun w hw hnw => ?_⟩
        simp only [List.mem_cons, List.not_mem_nil, or_false] at hw
        rcases hw with rfl | rfl | rfl | rfl <;> omega

/-! ### Concrete example stores

Each store is one uint32 dataset collection, written out both as the
`mkState`/`removeRows` call that reaches it and as the resulting state
literal.  Bit `31 - r` of a packed word is physical row `r` of that
word-row. -/

def dsC1 : Dataset := ⟨[[2 ^ 30]], 1, 1, 1, 32⟩

/-- The C1 store right after construction: 1 column, 4 declared rows
packed in one word, only physical row 1 set. -/
def exC1s0 : State :=
  { datasets := [dsC1], dataset_initial_n_rows := [4], dataset_n_rows := [4]
    initial_total_n_rows := 4, total_n_rows := 4, dataset_n_cols := 1
    dataset_dtype := 32, dataset_removed_rows := [[]]
    row_block_size := some 1, col_block_size := some 1
    dataset_stop_example := [4], dataset_start_example := [0]
    dataset_pack_size := 32 }

/-- The C1 store after `remove_rows([0, 1])`. -/
def exC1s1 : State :=
  { exC1s0 with
    dataset_removed_rows := [[0, 1]], dataset_n_rows := [2],
    dataset_stop_example := [2], dataset_start_example := [0],
    total_n_rows := 2 }

def dsC2a : Dataset := ⟨[[2 ^ 31]], 1, 1, 1, 32⟩

def dsC2b : Dataset := ⟨[[2 ^ 31 + 2 ^ 30]], 1, 1, 1, 32⟩

/-- The C2 store after construction: two datasets of two declared rows
each. -/
def exC2s0 : State :=
  { datasets := [dsC2a, dsC2b], dataset_initial_n_rows := [2, 2]
    dataset_n_rows := [2, 2], initial_total_n_rows := 4, total_n_rows := 4
    dataset_n_cols := 1, dataset_dtype := 32
    dataset_removed_rows := [[], []], row_block_size := some 1
    col_block_size := some 1, dataset_stop_example := [2, 4]
    dataset_start_example := [0, 2], dataset_pack_size := 32 }

/-- The C2 store after one `remove_rows([1])`. -/
def exC2s1 : State :=
  { exC2s0 with
    dataset_removed_rows := [[1], []], dataset_n_rows := [1, 2],
    dataset_stop_example := [1, 3], dataset_start_example := [0, 1],
    total_n_rows := 3 }

/-- The C2 store after a second `remove_rows([1])`: global row 1 now lies
in the second dataset, so another physical row is removed. -/
def exC2s2 : State :=
  { exC2s0 with
    dataset_removed_rows := [[1], [0]], dataset_n_rows := [1, 1],
    dataset_stop_example := [1, 2], dataset_start_example := [0, 1],
    total_n_rows := 2 }

/-- A store whose only dataset already has relative row 0 removed; used
to exercise the set-union no-op of re-removal. -/
def exC2w : State :=
  { datasets := [⟨[[2 ^ 30]], 1, 1, 1, 32⟩], dataset_initial_n_rows := [4]
    dataset_n_rows := [3], initial_total_n_rows := 4, total_n_rows := 3
    dataset_n_cols := 1, dataset_dtype := 32, dataset_removed_rows := [[0]]
    row_block_size := some 1, col_block_size := some 1
    dataset_stop_example := [3], dataset_start_example := [0]
    dataset_pack_size := 32 }

def exC3s : State :=
  { datasets := [⟨[[0]], 1, 1, 1, 32⟩], dataset_initial_n_rows := [2]
    dataset_n_rows := [2], initial_total_n_rows := 2, total_n_rows := 2
    dataset_n_cols := 1, dataset_dtype := 32, dataset_removed_rows := [[]]
    row_block_size := some 1, col_block_size := some 1
    dataset_stop_example := [2], dataset_start_example := [0]
    dataset_pack_size := 32 }

def dsC4 : Dataset := ⟨[[5]], 1, 1, 1, 32⟩

def exC4s0 : State :=
  { datasets := [dsC4], dataset_initial_n_rows := [3], dataset_n_rows := [3]
    initial_total_n_rows := 3, total_n_rows := 3, dataset_n_cols := 1
    dataset_dtype := 32, dataset_removed_rows := [[]]
    row_block_size := some 1, col_block_size := some 1
    dataset_stop_example := [3], dataset_start_example := [0]
    dataset_pack_size := 32 }

def exC4s1 : State :=
  { exC4s0 with
    dataset_removed_rows := [[1]], dataset_n_rows := [2],
    dataset_stop_example := [2], dataset_start_example := [0],
    total_n_rows := 2 }

def exC5s : State :=
  { datasets := [⟨[[2 ^ 31, 2 ^ 30]], 2, 1, 2, 32⟩]
    dataset_initial_n_rows := [3], dataset_n_rows := [2]
    initial_total_n_rows := 3, total_n_rows := 2, dataset_n_cols := 2
    dataset_dtype := 32, dataset_removed_rows := [[1]]
    row_block_size := some 1, col_block_size := some 2
    dataset_stop_example := [2], dataset_start_example := [0]
    dataset_pack_size := 32 }

def dsC7 : Dataset := ⟨[[2 ^ 31]], 1, 1, 1, 32⟩

/-- One declared row (its bit set), nothing removed. -/
def exC7s : State :=
  { datasets := [dsC7], dataset_initial_n_rows := [1], dataset_n_rows := [1]
    initial_total_n_rows := 1, total_n_rows := 1, dataset_n_cols := 1
    dataset_dtype := 32, dataset_removed_rows := [[]]
    row_block_size := some 1, col_block_size := some 1
    dataset_stop_example := [1], dataset_start_example := [0]
    dataset_pack_size := 32 }

def dsC8 : Dataset := ⟨[[2 ^ 31]], 1, 1, 1, 32⟩

def exC8s : State :=
  { datasets := [dsC8], dataset_initial_n_rows := [1], dataset_n_rows := [1]
    initial_total_n_rows := 1, total_n_rows := 1, dataset_n_cols := 1
    dataset_dtype := 32, dataset_removed_rows := [[]]
    row_block_size := some 1, col_block_size := some 1
    dataset_stop_example := [1], dataset_start_example := [0]
    dataset_pack_size := 32 }

def dsC9 : Dataset := ⟨[[2 ^ 31]], 1, 1, 1, 32⟩

/-- Constructed with a column block-size override supplied: the source
never stores it, so the attribute stays unset. -/
def exC9s : State :=
  { datasets := [dsC9], dataset_initial_n_rows := [1], dataset_n_rows := [1]
    initial_total_n_rows := 1, total_n_rows := 1, dataset_n_cols := 1
    dataset_dtype := 32, dataset_removed_rows := [[]]
    row_block_size := some 1, col_block_size := none
    dataset_stop_example := [1], dataset_start_example := [0]
    dataset_pack_size := 32 }

def dsC10 : Dataset := ⟨[[2 ^ 29]], 1, 1, 1, 32⟩

def exC10s0 : State :=
  { datasets := [dsC10], dataset_initial_n_rows := [2], dataset_n_rows := [2]
    initial_total_n_rows := 2, total_n_rows := 2, dataset_n_cols := 1
    dataset_dtype := 32, dataset_removed_rows := [[]]
    row_block_size := some 1, col_block_size := some 1
    dataset_stop_example := [2], dataset_start_example := [0]
    dataset_pack_size := 32 }

def exC10s1 : State :=
  { exC10s0 with
    dataset_removed_rows := [[0]], dataset_n_rows := [1],
    dataset_stop_example := [1], dataset_start_example := [0],
    total_n_rows := 1 }

/-! ### Claims -/

/-- C1: the sum/extract agreement fails on the code.  In the store
`exC1s1` — reachable by constructing over one packed word with rows
0-3 declared and only physical row 1 set, then `remove_rows([0, 1])` —
the surviving rows are physical 2 and 3, so `get_column(0)` is all false
and the claimed count for `S = [0]` in column 0 is 0.  But `sum_rows([0])`
returns 1: the deleted-row offset maps logical row 0 to physical row 1
(one removed row ≤ naive index 0), which is itself a removed row, so a
tombstoned row's bit is counted.  The single-pass correction
`relative + |{removed ≤ relative}|` can land on a removed physical row. -/
theorem sum_rows_offset_counts_removed_row :
    mkState [dsC1] [4] none none = .ok exC1s0 ∧
    removeRows exC1s0 [0, 1] = .ok exC1s1 ∧
    sumRows exC1s1 [0] = .ok (8, [1], 1) ∧
    getColumn exC1s1 0 = .ok [false, false] :=
  ⟨rfl, rfl, rfl, rfl⟩

/-- C2 (counterexample): `remove_rows(R)` twice is not the same as once.
`R = [1]` is valid in the two-dataset store `exC2s0`; the first call
removes relative row 1 of dataset 0 (shape becomes `(3, 1)`), the second
call resolves global row 1 in the *new* numbering to dataset 1 and
removes a further row (shape `(2, 1)`). -/
theorem remove_rows_twice_differs :
    mkState [dsC2a, dsC2b] [2, 2] none none = .ok exC2s0 ∧
    removeRows exC2s0 [1] = .ok exC2s1 ∧
    removeRows exC2s1 [1] = .ok exC2s2 ∧
    shape exC2s1 = (3, 1) ∧ shape exC2s2 = (2, 1) :=
  ⟨rfl, rfl, rfl, rfl, rfl⟩

/-- C2 (amended): what does hold is the set-union no-op: when every row
of `R` maps, in the current numbering, to a dataset-relative index that
is already in that dataset's removed set, `remove_rows(R)` returns with
the state unchanged — shape and every `get_column` result included.  (In
general a second `remove_rows(R)` interprets `R` in the post-removal
numbering and may remove additional rows or raise `IndexError`.) -/
theorem remove_rows_reremoval_noop (s : State) (R : List Int) (hwf : WF s)
    (h : ∀ r ∈ R, ∃ i, getRowDataset s r = some i ∧
      (r - s.dataset_start_example.getD i 0).toNat ∈
        s.dataset_removed_rows.getD i []) :
    removeRows s R = .ok s :=
  removeRows_noop hwf h

theorem remove_rows_reremoval_noop_witness :
    removeRows exC2w [0] = .ok exC2w :=
  remove_rows_reremoval_noop exC2w [0] (by decide) (fun r hr => by
    have h0 : r = 0 := by simpa using hr
    subst h0
    exact ⟨0, rfl, by decide⟩)

/-- C3: a `remove_rows` batch containing any global index outside
`[0, total_n_rows)` — negative indices included — fails with `IndexError`
and mutates nothing: phase 1 only reads, so the error is raised before
any bookkeeping is touched, and no post-state exists (all-or-nothing). -/
theorem remove_rows_out_of_bounds_error (s : State) (rows : List Int)
    (hwf : WF s) (h : ∃ r ∈ rows, r < 0 ∨ s.total_n_rows ≤ r) :
    removeRows s rows = .error "IndexError: row index out of bounds" := by
  simp only [removeRows, collectRemovals_err hwf _ h]

theorem remove_rows_out_of_bounds_error_witness :
    removeRows exC3s [-1] = .error "IndexError: row index out of bounds" :=
  remove_rows_out_of_bounds_error exC3s [-1] (by decide)
    ⟨-1, by decide, Or.inl (by decide)⟩

/-- C4: the start/stop bookkeeping invariant.  Construction (with
non-negative declared row counts matching the dataset list and within
physical capacity) establishes the well-formedness `WF` and the claimed
invariant `Inv` — `start[0] = 0`, `stop[i] = start[i] + n_rows[i]`,
`start[i+1] = stop[i]`, `total = Σ n_rows`, and the ranges partition
`[0, total)` without overlap — and every successful `remove_rows`
preserves both. -/
theorem index_invariant_holds :
    (∀ (ds : List Dataset) (nr : List Int) (rb cb : Option Nat) (s : State),
      mkState ds nr rb cb = .ok s → (∀ x ∈ nr, 0 ≤ x) →
      nr.length = ds.length →
      (∀ i ∈ List.range s.datasets.length,
        s.dataset_initial_n_rows.getD i 0 ≤
          ((s.datasets.getD i default).rows.length * s.dataset_pack_size : Int)) →
      WF s ∧ Inv s) ∧
    (∀ (s : State) (rows : List Int) (s' : State), WF s →
      removeRows s rows = .ok s' → WF s' ∧ Inv s') := by
  constructor
  · intro ds nr rb cb s h hnn hlen hcap
    have hwf := mkState_wf h hnn hlen hcap
    exact ⟨hwf, wf_inv hwf⟩
  · intro s rows s' hwf h
    have hwf' := removeRows_wf hwf h
    exact ⟨hwf', wf_inv hwf'⟩

theorem index_invariant_holds_witness :
    (WF exC4s0 ∧ Inv exC4s0) ∧ (WF exC4s1 ∧ Inv exC4s1) := by
  have h0 := index_invariant_holds.1 [dsC4] [3] none none exC4s0 rfl
    (by decide) (by decide) (by decide)
  exact ⟨h0, index_invariant_holds.2 exC4s0 [1] exC4s1 h0.1 rfl⟩

/-- C5: in every well-formed (construction-reachable) store and for every
in-range column, `get_column` returns exactly the spec's vector: per
dataset the unpacked column filtered to physical rows below the declared
`initial_n_rows` and not in the removed set, concatenated in dataset
order (ascending global-row order), with length the current
`total_n_rows`. -/
theorem get_column_matches_spec (s : State) (col : Nat) (hwf : WF s)
    (_hcol : col < s.dataset_n_cols) :
    getColumn s col = .ok (specGetColumn s col) ∧
    (specGetColumn s col).length = s.total_n_rows.toNat :=
  ⟨getColumn_eq_spec hwf col, specGetColumn_length hwf col⟩

theorem get_column_matches_spec_witness :
    (getColumn exC5s 0 = .ok (specGetColumn exC5s 0) ∧
      (specGetColumn exC5s 0).length = exC5s.total_n_rows.toNat) ∧
    specGetColumn exC5s 0 = [true, false] :=
  ⟨get_column_matches_spec exC5s 0 (by decide) (by decide), by decide⟩

/-- C6: `build_row_mask` does not support width 128, although its own
validation accepts it: the widths 8/16/32/64 behave as specified, but for
128 the final `np.array(masks, dtype="u" + str(128 / 8))` asks numpy for
the non-existent 128-bit unsigned dtype `"u16"` and raises `TypeError`
instead of returning `ceil(row_count / 128)` mask words. -/
theorem build_row_mask_128_fails :
    build_row_mask [0] 1 128 = .error "TypeError: data type not understood" :=
  rfl

/-- C7 (counterexample): duplicate rows are not each counted.  In `exC7s`
(one declared row whose bit is set, so `get_column(0) = [true]`),
multiset semantics would give `sum_rows([0, 0])` the per-column count 2,
but the code returns 1: the row mask ORs the same bit twice. -/
theorem sum_rows_duplicate_rows_counted_once :
    mkState [dsC7] [1] none none = .ok exC7s ∧
    getColumn exC7s 0 = .ok [true] ∧
    sumRows exC7s [0, 0] = .ok (8, [1], 1) :=
  ⟨rfl, rfl, rfl⟩

/-- C7 (amended): `sum_rows` has set semantics on rows, not multiset:
after sorting, duplicate indices are adjacent, and `build_row_mask` is
unchanged by an immediately repeated index (OR of an already-set bit), so
a repeated row contributes its bits once; only the result dtype is chosen
from the raw, duplicate-inclusive length.  Concretely,
`sum_rows([0, 0])` and `sum_rows([0])` agree on `exC7s`. -/
theorem sum_rows_duplicates_collapse :
    (∀ (x : Nat) (l : List Nat) (n : Int) (w : Nat),
      build_row_mask (x :: x :: l) n w = build_row_mask (x :: l) n w) ∧
    sumRows exC7s [0, 0] = sumRows exC7s [0] :=
  ⟨build_row_mask_dup, rfl⟩

/-- C8: `sum_rows` sizes its result so no per-column count can overflow,
and an empty query is free.  (1) Any successful `sum_rows` returns counts
in the dtype `_column_sum_dtype(len(rows))`; (2) for every feasible
subset size `n < 2^64` that dtype is the smallest of the 8/16/32/64-bit
unsigned widths whose maximum is at least `n`; (3) on an empty row list
(given the column block size attribute exists and is positive, as the
default construction path guarantees) the result is an all-zero vector of
length `n_cols` in the narrowest dtype, with zero block loads — no
backing I/O. -/
theorem sum_rows_dtype_and_empty :
    (∀ (s : State) (rows : List Int) (out : Nat × List Nat × Nat),
      sumRows s rows = .ok out → out.1 = columnSumDtype rows.length) ∧
    (∀ n : Nat, n < 2 ^ 64 →
      columnSumDtype n ∈ ([8, 16, 32, 64] : List Nat) ∧
      n ≤ 2 ^ columnSumDtype n - 1 ∧
      ∀ w ∈ ([8, 16, 32, 64] : List Nat), n ≤ 2 ^ w - 1 →
        columnSumDtype n ≤ w) ∧
    (∀ (s : State) (cbs : Nat), s.col_block_size = some cbs → cbs ≠ 0 →
      sumRows s [] = .ok (8, List.replicate s.dataset_n_cols 0, 0)) :=
  ⟨fun _ _ _ h => sumRows_width h, columnSumDtype_smallest,
    fun _ _ hc hnz => sumRows_empty hc hnz⟩

theorem sum_rows_dtype_and_empty_witness :
    ((8, [1], 1) : Nat × List Nat × Nat).1 =
      columnSumDtype ([(0 : Int)] : List Int).length ∧
    (columnSumDtype 300 ∈ ([8, 16, 32, 64] : List Nat) ∧
      300 ≤ 2 ^ columnSumDtype 300 - 1 ∧
      ∀ w ∈ ([8, 16, 32, 64] : List Nat), 300 ≤ 2 ^ w - 1 →
        columnSumDtype 300 ≤ w) ∧
    sumRows exC8s [] = .ok (8, List.replicate exC8s.dataset_n_cols 0, 0) :=
  ⟨sum_rows_dtype_and_empty.1 exC8s [0] (8, [1], 1) rfl,
    sum_rows_dtype_and_empty.2.1 300 (by norm_num),
    sum_rows_dtype_and_empty.2.2 exC8s 1 rfl (by decide)⟩

/-- C9: a supplied block-size override is dropped, not stored.
`__init__` assigns `self.col_block_size` only when the argument is
`None` (there is no `else` branch), so constructing with an override
leaves the attribute unset, and the very next `sum_rows` — here on the
valid empty row list — raises `AttributeError` instead of streaming with
the requested block size. -/
theorem block_size_override_dropped :
    mkState [dsC9] [1] none (some 2) = .ok exC9s ∧
    exC9s.col_block_size = none ∧
    sumRows exC9s [] = .error
      "AttributeError: 'HDF5PackedAttributeClassifications' object has no attribute 'col_block_size'" :=
  ⟨rfl, rfl, rfl⟩

/-- C10: a successful `remove_rows` only touches the row bookkeeping: the
dataset list, the per-dataset initial row counts, the column count, the
dtype and pack size, both block sizes, and the initial total are all
unchanged, so `shape[1]` is constant for the lifetime of the object. -/
theorem remove_rows_frame (s s' : State) (rows : List Int)
    (h : removeRows s rows = .ok s') :
    s'.datasets = s.datasets ∧
    s'.dataset_initial_n_rows = s.dataset_initial_n_rows ∧
    s'.dataset_n_cols = s.dataset_n_cols ∧
    s'.dataset_dtype = s.dataset_dtype ∧
    s'.dataset_pack_size = s.dataset_pack_size ∧
    s'.row_block_size = s.row_block_size ∧
    s'.col_block_size = s.col_block_size ∧
    s'.initial_total_n_rows = s.initial_total_n_rows ∧
    (shape s').2 = (shape s).2 := by
  simp only [removeRows] at h
  split at h
  · exact absurd h (by simp)
  · simp only [Except.ok.injEq] at h
    subst h
    exact ⟨rfl, rfl, rfl, rfl, rfl, rfl, rfl, rfl, rfl⟩

theorem remove_rows_frame_witness :
    exC10s1.datasets = exC10s0.datasets ∧
    exC10s1.dataset_initial_n_rows = exC10s0.dataset_initial_n_rows ∧
    exC10s1.dataset_n_cols = exC10s0.dataset_n_cols ∧
    exC10s1.dataset_dtype = exC10s0.dataset_dtype ∧
    exC10s1.dataset_pack_size = exC10s0.dataset_pack_size ∧
    exC10s1.row_block_size = exC10s0.row_block_size ∧
    exC10s1.col_block_size = exC10s0.col_block_size ∧
    exC10s1.initial_total_n_rows = exC10s0.initial_total_n_rows ∧
    (shape exC10s1).2 = (shape exC10s0).2 :=
  remove_rows_frame exC10s0 exC10s1 [0] rfl

end PyScm
